import Mathlib

/-!
Verification of the live-search / highlight engine of `src/scripts/app.js`.

The repository file contains three concatenated revisions of the same script.
The first revision (lines 1-273) implements the visibility/section-cascade
input handler, the `MutationObserver` callback, `buildSearchRegex` and the
"empty results" notice.  The second revision (lines 274-662) implements
`setupSearch`, `searchAndHighlightInCard`, `highlightInElement`,
`findAllOccurrences`, `clearHighlights`, `closeSearchOpenedDetails` and
`normalize`.  Each claim is settled against the revision it cites.

Strings are modelled as `List Char` (JS strings over the Latin repertoire used
by the page).  The JS built-ins `String.prototype.normalize('NFD')` and
`String.prototype.toLowerCase` are embedded by explicit tables covering the
Spanish accented letters that occur on the page and in the spec's examples
(a/e/i/o/u with acute, n with tilde, u with diaeresis, both cases); every
other character decomposes to itself.
-/

namespace App

/-- Model of JS strings: a list of Unicode scalar values. -/
abbrev Str := List Char

/-- Character class of the JS regex `\s` and of `String.prototype.trim`
(space, tab, line feed, carriage return, vertical tab, form feed, NBSP). -/
def isJsSpace (c : Char) : Bool :=
  c = ' ' || c = '\t' || c = '\n' || c = '\r' ||
  c.toNat = 0xb || c.toNat = 0xc || c.toNat = 0xa0

/-- Model of `String.prototype.trim`: strip `isJsSpace` characters from both
ends. -/
def trim (s : Str) : Str :=
  ((s.dropWhile isJsSpace).reverse.dropWhile isJsSpace).reverse

/-- Combining acute accent U+0301. -/
def combAcute : Char := Char.ofNat 0x301

/-- Combining tilde U+0303. -/
def combTilde : Char := Char.ofNat 0x303

/-- Combining diaeresis U+0308. -/
def combDiaeresis : Char := Char.ofNat 0x308

/-- Characters matched by the source's `/[̀-ͯ]/g` (combining
diacritical marks). -/
def isCombMark (c : Char) : Bool :=
  decide (0x300 ≤ c.toNat) && decide (c.toNat ≤ 0x36f)

/-- Model of `String.prototype.toLowerCase` on one character, for the ASCII
letters and the accented Latin letters used by the page. -/
def jsCharToLower (c : Char) : Char :=
  if 'A' ≤ c && c ≤ 'Z' then Char.ofNat (c.toNat + 32)
  else if c = 'Á' then 'á'
  else if c = 'É' then 'é'
  else if c = 'Í' then 'í'
  else if c = 'Ó' then 'ó'
  else if c = 'Ú' then 'ú'
  else if c = 'Ñ' then 'ñ'
  else if c = 'Ü' then 'ü'
  else c

/-- Model of `String.prototype.toLowerCase`. -/
def toLowerStr (s : Str) : Str := s.map jsCharToLower

/-- Unicode NFD decomposition of one character, for the accented Latin letters
used by the page; all other characters decompose to themselves. -/
def nfdChar (c : Char) : List Char :=
  if c = 'á' then ['a', combAcute]
  else if c = 'é' then ['e', combAcute]
  else if c = 'í' then ['i', combAcute]
  else if c = 'ó' then ['o', combAcute]
  else if c = 'ú' then ['u', combAcute]
  else if c = 'ñ' then ['n', combTilde]
  else if c = 'ü' then ['u', combDiaeresis]
  else if c = 'Á' then ['A', combAcute]
  else if c = 'É' then ['E', combAcute]
  else if c = 'Í' then ['I', combAcute]
  else if c = 'Ó' then ['O', combAcute]
  else if c = 'Ú' then ['U', combAcute]
  else if c = 'Ñ' then ['N', combTilde]
  else if c = 'Ü' then ['U', combDiaeresis]
  else [c]

/-- Model of `String.prototype.normalize('NFD')`. -/
def nfd (s : Str) : Str := (s.map nfdChar).flatten

/-- Embedding of `normalize` (app.js lines 629-634):
`str.normalize('NFD').replace(/[̀-ͯ]/g, '').toLowerCase()`. -/
def normalize (s : Str) : Str :=
  toLowerStr ((nfd s).filter (fun c => !isCombMark c))

/-- Exact character comparison (used by `String.prototype.indexOf`). -/
def charEq (a b : Char) : Bool := a == b

/-- Case-insensitive character comparison (the `i` regex flag, via
`toLowerCase` folding). -/
def ciChar (a b : Char) : Bool := jsCharToLower a == jsCharToLower b

/-- Pointwise comparison of two strings by a character comparator. -/
def eqBy (ceq : Char → Char → Bool) : Str → Str → Bool
  | [], [] => true
  | a :: as, b :: bs => ceq a b && eqBy ceq as bs
  | _, _ => false

/-- Whether `query` occurs (under comparator `ceq`) in `text` at position
`j`. -/
def occursAtBy (ceq : Char → Char → Bool) (text query : Str) (j : Nat) : Bool :=
  decide (j + query.length ≤ text.length) &&
  eqBy ceq ((text.drop j).take query.length) query

/-- Model of `text.indexOf(query, i)` (generalised to a comparator): the least
position `j ≥ i` at which `query` occurs, if any. -/
def indexOfFromBy (ceq : Char → Char → Bool) (text query : Str) (i : Nat) :
    Option Nat :=
  (List.range (text.length + 1)).find?
    (fun j => decide (i ≤ j) && occursAtBy ceq text query j)

/-- Model of `String.prototype.includes`. -/
def includes (text query : Str) : Bool :=
  (indexOfFromBy charEq text query 0).isSome

/-- Match range `{ start, end }` as produced by `findAllOccurrences`
(app.js lines 593-605). -/
structure Range where
  start : Nat
  «end» : Nat
deriving DecidableEq

/-- The scanning loop shared by `findAllOccurrences` and by a global (`g` flag)
regex replace over a literal pattern: starting at `i`, find the next
occurrence, record its range, and continue just past its end.  The `fuel`
argument bounds the number of iterations; the source loop performs at most
`text.length` iterations because `i` strictly increases while the query is
non-empty, so the initial fuel `text.length + 1` is never exhausted. -/
def scanLoop (ceq : Char → Char → Bool) (text query : Str) :
    Nat → Nat → List Range
  | 0, _ => []
  | fuel + 1, i =>
    if (i : Int) ≤ (text.length : Int) - (query.length : Int) then
      match indexOfFromBy ceq text query i with
      | none => []
      | some j => ⟨j, j + query.length⟩ :: scanLoop ceq text query fuel (j + query.length)
    else []

/-- Embedding of `findAllOccurrences` (app.js lines 593-605): collect the
ranges of all (non-overlapping, left-to-right) exact occurrences of `query`
in `text`; the empty query yields no ranges (`if (!query) return ranges`). -/
def findAllOccurrences (text query : Str) : List Range :=
  if query = [] then [] else scanLoop charEq text query (text.length + 1) 0

/-- Ranges produced by a global case-insensitive replace of the literal
pattern `query` over `text` (the `text.replace(accentInsensitiveRegex, ...)`
call of `highlightInElement`, app.js lines 561-587). -/
def ciFindAll (text query : Str) : List Range :=
  scanLoop ciChar text query (text.length + 1) 0

/-- Character class of the JS regex `\w` (word characters `[A-Za-z0-9_]`). -/
def isWordChar (c : Char) : Bool :=
  ('a' ≤ c && c ≤ 'z') || ('A' ≤ c && c ≤ 'Z') || ('0' ≤ c && c ≤ '9') || c = '_'

/-- Whether the character of `text` at position `k` is a word character
(out-of-range positions count as non-word). -/
def isWordCharAt (text : Str) (k : Nat) : Bool :=
  match text.drop k with
  | c :: _ => isWordChar c
  | [] => false

/-- Semantics of the regex `\b` assertion at position `j` of `text`: the
word-character status changes between the two sides. -/
def atBoundary (text : Str) (j : Nat) : Bool :=
  (if j = 0 then false else isWordCharAt text (j - 1)) != isWordCharAt text j

/-- Characters escaped by `escapeRegExp` (app.js line 28). -/
def isRegexSpecial (c : Char) : Bool :=
  c = '.' || c = '*' || c = '+' || c = '?' || c = '^' || c = '$' ||
  c = Char.ofNat 0x7b || c = Char.ofNat 0x7d || c = '(' || c = ')' ||
  c = '|' || c = '[' || c = ']' || c = '\\'

/-- Embedding of `escapeRegExp` (app.js line 28): backslash-escape every regex
metacharacter, so that the resulting pattern matches the input literally. -/
def escapeRegExp (s : Str) : Str :=
  (s.map (fun c => if isRegexSpecial c then ['\\', c] else [c])).flatten

/-- Model of the regexes produced by `buildSearchRegex` (app.js lines 41-46):
because the term is passed through `escapeRegExp`, the pattern denotes the
literal term, optionally wrapped in `\b ... \b`; the flags are `gi`. -/
structure JsRegex where
  lit : Str
  wholeWord : Bool
deriving DecidableEq

/-- Embedding of `buildSearchRegex` (app.js lines 41-46): whole-word pattern
exactly when the term has at least 3 characters and no `\s` character. -/
def buildSearchRegex (term : Str) : JsRegex :=
  { lit := term, wholeWord := decide (3 ≤ term.length) && !(term.any isJsSpace) }

/-- Whether a case-insensitive literal regex (optionally whole-word) matches
`text` at position `j`. -/
def regexMatchAt (re : JsRegex) (text : Str) (j : Nat) : Bool :=
  occursAtBy ciChar text re.lit j &&
  (!re.wholeWord || (atBoundary text j && atBoundary text (j + re.lit.length)))

/-- Model of `RegExp.prototype.test` for the regexes of `buildSearchRegex`. -/
def regexTest (re : JsRegex) (text : Str) : Bool :=
  (List.range (text.length + 1)).any (fun j => regexMatchAt re text j)

/-- Embedding of `matches` (app.js lines 13-16): empty term matches
everything; otherwise case-insensitive substring test on the element's text
content (`el.textContent.toLowerCase().includes(term)`). -/
def matchesEl (textContent term : Str) : Bool :=
  if term = [] then true else includes (toLowerStr textContent) term

/-! DOM tree model for `highlightInElement` and `clearHighlights`.  A node is
a text node or an element with a tag, a class list and children. -/

mutual
inductive Node : Type where
  | text (value : Str) : Node
  | elem (tag : Str) (classes : List Str) (children : NodeList) : Node
inductive NodeList : Type where
  | nil : NodeList
  | cons (head : Node) (tail : NodeList) : NodeList
end

/-- Tag name of `<script>` elements as seen through `parentElement.tagName`. -/
def scriptTag : Str := "SCRIPT".toList

/-- Tag name of `<style>` elements. -/
def styleTag : Str := "STYLE".toList

/-- Tag name of the inserted `<mark>` wrappers. -/
def markTag : Str := "MARK".toList

/-- Tag name of the `<span>` produced by `span.innerHTML = replaced`. -/
def spanTag : Str := "SPAN".toList

/-- Class `search-hit` carried by the inserted markers. -/
def searchHitCls : Str := "search-hit".toList

mutual
/-- Model of `Node.textContent`: concatenation of all text under a node. -/
def nodeText : Node → Str
  | .text s => s
  | .elem _ _ cs => nodeListText cs
/-- Text content of a list of sibling nodes. -/
def nodeListText : NodeList → Str
  | .nil => []
  | .cons n ns => nodeText n ++ nodeListText ns
end

/-- Filter of the `TreeWalker` in `highlightInElement` (app.js lines 545-555):
a text node is processed iff its value has a non-empty trim, its parent is not
`SCRIPT`/`STYLE` and its parent does not carry class `search-hit`. -/
def hlAccept (parentTag : Str) (parentClasses : List Str) (s : Str) : Bool :=
  !(trim s).isEmpty && !(parentTag == scriptTag) && !(parentTag == styleTag) &&
  !(parentClasses.contains searchHitCls)

/-- Node sequence produced by parsing the replaced string
`text.replace(accentInsensitiveRegex, m => "<mark class=..." + m + "</mark>")`
through `span.innerHTML`, for text free of the markup characters `<` and `&`:
alternating plain-text segments and `<mark class="search-hit">` wrappers whose
content is the matched slice of the original text, verbatim.  On text
containing `&` the real parse additionally decodes character references; that
decoding parse is `segsHtml` below, and the two coincide exactly on
ampersand-free text. -/
def segs (s : Str) : Nat → List Range → NodeList
  | pos, [] =>
    if (s.drop pos).isEmpty then .nil else .cons (.text (s.drop pos)) .nil
  | pos, r :: rs =>
    let pre := (s.drop pos).take (r.start - pos)
    let m : Node := .elem markTag [searchHitCls]
      (.cons (.text ((s.drop r.start).take (r.«end» - r.start))) .nil)
    if pre.isEmpty then .cons m (segs s r.«end» rs)
    else .cons (.text pre) (.cons m (segs s r.«end» rs))

/-- Per-text-node body of `highlightInElement` (app.js lines 572-587): gate on
`normalizedText.toLowerCase().includes(normalizedQuery)`, then globally
replace the case-insensitive matches of the literal normalized query (the
regex performs no accent folding: it is the normalized query tested against
the raw text), wrapping each match in a marker; the Boolean is the `hit`
contribution of this node.  The node output uses the literal segment parse
`segs`, exact for text free of `<` and `&`; `highlightTextNodeHtml` below is
the variant with character-reference decoding, and the Boolean `hit`
component is identical in both. -/
def highlightTextNode (nq s : Str) : Node × Bool :=
  if includes (normalize s) nq then
    (if (ciFindAll s nq).isEmpty then (.text s, false)
     else (.elem spanTag [] (segs s 0 (ciFindAll s nq)), true))
  else (.text s, false)

mutual
/-- Tree traversal of `highlightInElement`: transform each text node accepted
by the walker filter, keyed by its immediate parent's tag and classes. -/
def hlNode (nq parentTag : Str) (parentClasses : List Str) : Node → Node × Bool
  | .text s =>
    if hlAccept parentTag parentClasses s then highlightTextNode nq s
    else (.text s, false)
  | .elem t c cs =>
    (.elem t c (hlNodes nq t c cs).1, (hlNodes nq t c cs).2)
/-- Traversal of a sibling list under a common parent. -/
def hlNodes (nq parentTag : Str) (parentClasses : List Str) :
    NodeList → NodeList × Bool
  | .nil => (.nil, false)
  | .cons n ns =>
    (.cons (hlNode nq parentTag parentClasses n).1
       (hlNodes nq parentTag parentClasses ns).1,
     (hlNode nq parentTag parentClasses n).2 ||
       (hlNodes nq parentTag parentClasses ns).2)
end

/-- Embedding of `highlightInElement` (app.js lines 541-590): empty normalized
query returns `false` without walking; otherwise every accepted text node
whose normalized value contains the normalized query and whose raw value
matches the (non accent-folded) regex is replaced by a span of segments. -/
def highlightInElement (root : Node) (nq : Str) : Node × Bool :=
  if nq.isEmpty then (root, false)
  else
    match root with
    | .text s => (.text s, false)
    | .elem t c cs =>
      (.elem t c (hlNodes nq t c cs).1, (hlNodes nq t c cs).2)

/-- Match a named HTML character reference at the start of the text following
an ampersand, per the HTML tokenizer: semicolon-terminated forms first, then
the legacy forms that the parser accepts without a semicolon (longest match
first, so `notin;` is tried before `not`).  The table covers the references
over this page's character repertoire; it returns the decoded character and
the remaining input. -/
def matchRef (rest : Str) : Option (Char × Str) :=
  if ("amp;".toList).isPrefixOf rest then some ('&', rest.drop 4)
  else if ("lt;".toList).isPrefixOf rest then some ('<', rest.drop 3)
  else if ("gt;".toList).isPrefixOf rest then some ('>', rest.drop 3)
  else if ("quot;".toList).isPrefixOf rest then some ('"', rest.drop 5)
  else if ("notin;".toList).isPrefixOf rest then some ('∉', rest.drop 6)
  else if ("not;".toList).isPrefixOf rest then some ('¬', rest.drop 4)
  else if ("amp".toList).isPrefixOf rest then some ('&', rest.drop 3)
  else if ("lt".toList).isPrefixOf rest then some ('<', rest.drop 2)
  else if ("gt".toList).isPrefixOf rest then some ('>', rest.drop 2)
  else if ("quot".toList).isPrefixOf rest then some ('"', rest.drop 4)
  else if ("not".toList).isPrefixOf rest then some ('¬', rest.drop 3)
  else none

/-- Character-reference decoding of a text run by the HTML tokenizer, with
explicit fuel (each step consumes at least one input character, so fuel equal
to the input length never runs out; exhausted fuel returns the input
unchanged). -/
def htmlDecodeF : Nat → Str → Str
  | 0, s => s
  | _ + 1, [] => []
  | fuel + 1, c :: rest =>
    if c = '&' then
      match matchRef rest with
      | some (d, rest2) => d :: htmlDecodeF fuel rest2
      | none => '&' :: htmlDecodeF fuel rest
    else c :: htmlDecodeF fuel rest

/-- Model of how the HTML parser decodes a text run assigned through
`innerHTML`: an ampersand starting a (possibly legacy, semicolon-less) named
reference is decoded, any other character is kept.  On ampersand-free text it
is the identity. -/
def htmlDecode (s : Str) : Str := htmlDecodeF s.length s

/-- Node sequence produced by parsing the replaced string through
`span.innerHTML` (app.js lines 583-584) with character-reference decoding:
like `segs`, but every text run — the plain segments and the marker
contents — is decoded by the tokenizer.  References never span the inserted
`<mark>` tags, because a tag interrupts a reference, so per-run decoding is
the tokenizer's behaviour.  Tag-parsing of `<` occurring in the original text
is still not modelled: the model is exact for text free of `<`. -/
def segsHtml (s : Str) : Nat → List Range → NodeList
  | pos, [] =>
    if (s.drop pos).isEmpty then .nil
    else .cons (.text (htmlDecode (s.drop pos))) .nil
  | pos, r :: rs =>
    let pre := (s.drop pos).take (r.start - pos)
    let m : Node := .elem markTag [searchHitCls]
      (.cons (.text (htmlDecode ((s.drop r.start).take (r.«end» - r.start)))) .nil)
    if pre.isEmpty then .cons m (segsHtml s r.«end» rs)
    else .cons (.text (htmlDecode pre)) (.cons m (segsHtml s r.«end» rs))

/-- Per-text-node body of `highlightInElement` with the decoding `innerHTML`
parse: same gate and same regex ranges as `highlightTextNode` (the `hit`
Boolean is identical), but the replacement span is parsed with
character-reference decoding. -/
def highlightTextNodeHtml (nq s : Str) : Node × Bool :=
  if includes (normalize s) nq then
    (if (ciFindAll s nq).isEmpty then (.text s, false)
     else (.elem spanTag [] (segsHtml s 0 (ciFindAll s nq)), true))
  else (.text s, false)

mutual
/-- Tree traversal of `highlightInElement` with the decoding `innerHTML`
parse. -/
def hlNodeHtml (nq parentTag : Str) (parentClasses : List Str) :
    Node → Node × Bool
  | .text s =>
    if hlAccept parentTag parentClasses s then highlightTextNodeHtml nq s
    else (.text s, false)
  | .elem t c cs =>
    (.elem t c (hlNodesHtml nq t c cs).1, (hlNodesHtml nq t c cs).2)
/-- Sibling-list traversal with the decoding `innerHTML` parse. -/
def hlNodesHtml (nq parentTag : Str) (parentClasses : List Str) :
    NodeList → NodeList × Bool
  | .nil => (.nil, false)
  | .cons n ns =>
    (.cons (hlNodeHtml nq parentTag parentClasses n).1
       (hlNodesHtml nq parentTag parentClasses ns).1,
     (hlNodeHtml nq parentTag parentClasses n).2 ||
       (hlNodesHtml nq parentTag parentClasses ns).2)
end

/-- Embedding of `highlightInElement` (app.js lines 541-590) with the
decoding `innerHTML` parse of the replacement spans; it coincides with the
literal-parse `highlightInElement` exactly on units whose text is free of
`&`. -/
def highlightInElementHtml (root : Node) (nq : Str) : Node × Bool :=
  if nq.isEmpty then (root, false)
  else
    match root with
    | .text s => (.text s, false)
    | .elem t c cs =>
      (.elem t c (hlNodesHtml nq t c cs).1, (hlNodesHtml nq t c cs).2)

/-- Whether a node is a `mark.search-hit` marker (the selector of
`clearHighlights`). -/
def isMarkHit : Node → Bool
  | .elem t c _ => t == markTag && c.contains searchHitCls
  | .text _ => false

/-- Whether a sibling list contains a marker. -/
def nlAnyMark : NodeList → Bool
  | .nil => false
  | .cons n ns => isMarkHit n || nlAnyMark ns

/-- Whether a node is a text node. -/
def isTextNode : Node → Bool
  | .text _ => true
  | .elem _ _ _ => false

/-- Whether a node is an empty text node. -/
def isEmptyTextNode : Node → Bool
  | .text s => s.isEmpty
  | .elem _ _ _ => false

/-- First phase of `Node.normalize()` on a sibling list: drop empty text
nodes. -/
def dropEmptyTexts : NodeList → NodeList
  | .nil => .nil
  | .cons n ns =>
    if isEmptyTextNode n then dropEmptyTexts ns else .cons n (dropEmptyTexts ns)

/-- One step of text-node merging: prepend the text `s`, coalescing with a
leading text node of the already-merged tail. -/
def mergeStepText (s : Str) : NodeList → NodeList
  | .nil => .cons (.text s) .nil
  | .cons (.text t) r => .cons (.text (s ++ t)) r
  | .cons (.elem t c cs) r => .cons (.text s) (.cons (.elem t c cs) r)

/-- One step of `Node.normalize()` merging: prepend a node to the
already-merged tail, coalescing adjacent text nodes. -/
def mergeStep (n : Node) (r : NodeList) : NodeList :=
  match n with
  | .text s => mergeStepText s r
  | .elem t c cs => .cons (.elem t c cs) r

/-- Second phase of `Node.normalize()` on a sibling list: merge adjacent text
nodes. -/
def mergeGo : NodeList → NodeList
  | .nil => .nil
  | .cons n rest => mergeStep n (mergeGo rest)

/-- Model of `Node.normalize()` restricted to one sibling list: remove empty
text nodes and merge adjacent text nodes. -/
def mergeTexts (ns : NodeList) : NodeList := mergeGo (dropEmptyTexts ns)

mutual
/-- Embedding of `clearHighlights` (app.js lines 608-616) on a subtree: every
`mark.search-hit` is replaced by a plain text node holding its text content,
and `parent.normalize()` normalizes the whole subtree of each marker's
parent — `scope` records whether an ancestor-or-self children list contained
a marker, in which case this list is normalized too. -/
def clearNode (scope : Bool) : Node → Node
  | .text s => .text s
  | .elem t c cs =>
    .elem t c
      (if scope || nlAnyMark cs then
        mergeTexts (clearNodes (scope || nlAnyMark cs) cs)
      else clearNodes (scope || nlAnyMark cs) cs)
/-- Clearing of a sibling list: markers become text, other nodes recurse. -/
def clearNodes (scope : Bool) : NodeList → NodeList
  | .nil => .nil
  | .cons n ns =>
    .cons (if isMarkHit n then .text (nodeText n) else clearNode scope n)
      (clearNodes scope ns)
end

/-- Embedding of `clearHighlights` (app.js lines 608-616) from the document
root. -/
def clearHighlights (root : Node) : Node := clearNode false root

/-- No two adjacent sibling nodes are both text nodes. -/
def chainNoAdj : NodeList → Bool
  | .nil => true
  | .cons _ .nil => true
  | .cons a (.cons b rest) =>
    !(isTextNode a && isTextNode b) && chainNoAdj (.cons b rest)

mutual
/-- No children list anywhere in the node has two adjacent text nodes. -/
def noAdjNode : Node → Bool
  | .text _ => true
  | .elem _ _ cs => chainNoAdj cs && noAdjList cs
/-- List version of `noAdjNode`. -/
def noAdjList : NodeList → Bool
  | .nil => true
  | .cons n ns => noAdjNode n && noAdjList ns
end

mutual
/-- No `mark.search-hit` marker occurs anywhere in the node. -/
def noMarksNode : Node → Bool
  | .text _ => true
  | .elem t c cs => !(t == markTag && c.contains searchHitCls) && noMarksList cs
/-- List version of `noMarksNode`. -/
def noMarksList : NodeList → Bool
  | .nil => true
  | .cons n ns => noMarksNode n && noMarksList ns
end

mutual
/-- Every text value in the node is free of `<` and `&`, the domain on which
the `innerHTML`-based replacement is modelled exactly. -/
def markupFreeNode : Node → Bool
  | .text s => !(s.contains '<') && !(s.contains '&')
  | .elem _ _ cs => markupFreeList cs
/-- List version of `markupFreeNode`. -/
def markupFreeList : NodeList → Bool
  | .nil => true
  | .cons n ns => markupFreeNode n && markupFreeList ns
end

/-! Flat model of the first revision's input handler (app.js lines 96-198):
sections with an optional `h2` heading, filterable items (`.faq-item`,
`.contact`, `.chip`) with text content, flags and a containing section, and
the lazily created `#empty-state` notice.  In this revision `highlight` is
disabled (app.js lines 52-56): it only calls `unmark`, so every branch of the
pass clears marks. -/

/-- A filterable item of the first revision: text content, whether it is a
chip, whether its tag is `DETAILS`, whether it carries class `faq`, the index
of its enclosing `section.card` (if any), its `style.display`, its `open`
state and whether it still contains `mark.__hl` markers. -/
structure Item1 where
  textContent : Str
  isChip : Bool
  isDetails : Bool
  isFaq : Bool
  secIdx : Option Nat
  display : Str
  «open» : Bool
  hasMarks : Bool
deriving DecidableEq

/-- Default item used with `List.getD`. -/
def itemDfl : Item1 := ⟨[], false, false, false, none, [], false, false⟩

/-- A `section.card` of the first revision: its `h2` text (if present) and
whether the `h2` still contains markers. -/
structure Sec1 where
  h2 : Option Str
  h2Marks : Bool
deriving DecidableEq

/-- An element with id `empty-state` (text and `style.display`). -/
structure EmptyEl where
  textContent : Str
  display : Str
deriving DecidableEq

/-- Document state of the first revision: sections, filterable items in
document order, and the list of `#empty-state` elements (in document order;
`getElementById` resolves to the first). -/
structure Doc1 where
  sections : List Sec1
  items : List Item1
  emptyEls : List EmptyEl
deriving DecidableEq

/-- The string `none` assigned to `style.display` when hiding. -/
def noneStr : Str := "none".toList

/-- The string `block` assigned to the notice's `style.display`. -/
def blockStr : Str := "block".toList

/-- Message shown by the first revision's empty state (app.js line 195). -/
def noResultsMsg1 : Str :=
  "No se encuentran resultados para la búsqueda.".toList

/-- Section match of the first revision (app.js lines 107-110):
`!!(term && h2 && h2.textContent.toLowerCase().includes(term))`. -/
def secMatch (term : Str) (s : Sec1) : Bool :=
  !term.isEmpty &&
  (match s.h2 with
   | some h => includes (toLowerStr h) term
   | none => false)

/-- Section match looked up by index (the `sectionMatchMap`). -/
def secMatchAt (term : Str) (sections : List Sec1) (k : Nat) : Bool :=
  match sections.drop k with
  | s :: _ => secMatch term s
  | [] => false

/-- The `showBySection` flag of an item (app.js line 136). -/
def showBySectionOf (term : Str) (sections : List Sec1) (it : Item1) : Bool :=
  match it.secIdx with
  | some k => secMatchAt term sections k
  | none => false

/-- Per-item body of the first revision's pass (app.js lines 126-156): chips
are always shown and unmarked; other items are shown iff they match by
themselves or by section, details in a matched section are force-opened, and
every branch clears marks (highlight is disabled). -/
def passItem (term : Str) (sections : List Sec1) (it : Item1) : Item1 :=
  if it.isChip then { it with display := [], hasMarks := false }
  else
    let showSelf := matchesEl it.textContent term
    let showBySection := showBySectionOf term sections it
    if showSelf || showBySection then
      { it with
        display := [],
        hasMarks := false,
        «open» := if showBySection && it.isDetails then true else it.«open» }
    else { it with display := noneStr, hasMarks := false }

/-- Whether an item is counted by `visibleCount` (shown and not a chip;
chips return from the loop before the counter increment). -/
def isShownNonChip (term : Str) (sections : List Sec1) (it : Item1) : Bool :=
  !it.isChip && (matchesEl it.textContent term || showBySectionOf term sections it)

/-- The `visibleCount` of the pass. -/
def visCount (term : Str) (sections : List Sec1) (items : List Item1) : Nat :=
  (items.filter (isShownNonChip term sections)).length

/-- Index of the first matched section (`sections.find(s => map.get(s))`). -/
def firstMatchedSec (term : Str) (sections : List Sec1) : Option Nat :=
  (List.range sections.length).find? (fun k => secMatchAt term sections k)

/-- Open the first `details.faq` item of section `k`
(`sec.querySelector('details.faq')`), assuming the section's `details.faq`
elements are among the filterable items, in document order. -/
def openFirstFaqDetails (k : Nat) : List Item1 → List Item1
  | [] => []
  | it :: rest =>
    if it.isDetails && it.isFaq && it.secIdx == some k then
      { it with «open» := true } :: rest
    else it :: openFirstFaqDetails k rest

/-- Step 3 of the pass (app.js lines 160-169): if the term is non-empty and no
item was hit, open the first `details.faq` of the first matched section. -/
def step3 (term : Str) (sections : List Sec1) (items : List Item1) :
    List Item1 :=
  if !term.isEmpty && visCount term sections items == 0 then
    match firstMatchedSec term sections with
    | some k => openFirstFaqDetails k items
    | none => items
  else items

/-- Step 5 of the pass (app.js lines 182-196): lazily create the
`#empty-state` element if absent, then set its text and visibility from
`visibleCount`. -/
def passEmptyEls (vc : Nat) (els : List EmptyEl) : List EmptyEl :=
  let els' := if els.isEmpty then [⟨[], noneStr⟩] else els
  match els' with
  | [] => []
  | e :: rest =>
    { e with
      textContent := if vc == 0 then noResultsMsg1 else [],
      display := if vc == 0 then blockStr else noneStr } :: rest

/-- Embedding of the first revision's `input` handler (app.js lines 96-198):
lowercase and trim the raw value, clear `h2` marks (highlight is disabled),
run the per-item pass, run step 3, and update the empty-state notice from
`visibleCount`.  The scroll/flash step (lines 171-180) changes no modelled
state. -/
def onQInput (rawValue : Str) (d : Doc1) : Doc1 :=
  let term := toLowerStr (trim rawValue)
  let sections' := d.sections.map (fun s => { s with h2Marks := false })
  let items1 := d.items.map (passItem term d.sections)
  let items2 := step3 term d.sections items1
  let vc := visCount term d.sections d.items
  { sections := sections', items := items2, emptyEls := passEmptyEls vc d.emptyEls }

/-- A `details.faq` element as seen by the MutationObserver: its `open` state
and whether its inline style hides it (`style.display === 'none'`). -/
structure FaqDet where
  «open» : Bool
  displayNone : Bool
deriving DecidableEq

/-- Open the first `details.faq` whose display is not `none`
(app.js lines 71-75). -/
def openFirstVisible : List FaqDet → List FaqDet
  | [] => []
  | d :: rest =>
    if !d.displayNone then { d with «open» := true } :: rest
    else d :: openFirstVisible rest

/-- Query read by the MutationObserver (app.js line 66):
`(q && q.value.trim().toLowerCase()) || ""`, empty when the input is
absent. -/
def observerTerm (qValue : Option Str) : Str :=
  match qValue with
  | some v => toLowerStr (trim v)
  | none => []

/-- Embedding of the MutationObserver callback (app.js lines 65-77): read the
query (empty when the input is absent), do nothing if it is empty or some
`details.faq` is open, else open the first visible one. -/
def observerCallback (qValue : Option Str) (dets : List FaqDet) :
    List FaqDet :=
  let term := observerTerm qValue
  if term.isEmpty then dets
  else if dets.any (fun d => d.«open») then dets
  else openFirstVisible dets

/-! Flat model of the second revision's search engine (`setupSearch`,
app.js lines 462-498, with `searchAndHighlightInCard`,
`closeSearchOpenedDetails` and `clearHighlights`).  Each `details` element
carries the values of its text nodes (summary and content); these values are
stable across passes because every pass clears markers first and the
highlight/clear round trip preserves text content.  The result-count
announcement strings are not modelled (no claim constrains them). -/

/-- A `details` element of the second revision: its text node values, its
`open` state, whether it carries `data-opened-by-search`, whether it is still
connected to the document, and whether it currently contains
`mark.search-hit` markers. -/
structure Det where
  texts : List Str
  «open» : Bool
  tagged : Bool
  connected : Bool
  marked : Bool
deriving DecidableEq

/-- Hit decision of `highlightInElement` for one text node value: the walker
accepts it (non-blank) and the node body reports a hit. -/
def textHit (nq s : Str) : Bool :=
  !(trim s).isEmpty && (highlightTextNode nq s).2

/-- Whether `highlightInElement` reports a match anywhere inside a `details`
(summary or content), driving `summaryMatch || contentMatch`
(app.js lines 509-516). -/
def detMatches (nq : Str) (d : Det) : Bool :=
  !nq.isEmpty && d.texts.any (textHit nq)

/-- Engine state: the `details` elements in document order and the
`openedBySearch` set (as the list of indices it contains). -/
structure SearchState where
  dets : List Det
  openedBySearch : List Nat
deriving DecidableEq

/-- Effect of `clearHighlights` on the flat state: markers are removed from
every connected `details` (`document.querySelectorAll` only reaches connected
nodes). -/
def clearMarks (ds : List Det) : List Det :=
  ds.map (fun d => if d.connected then { d with marked := false } else d)

/-- Embedding of `closeSearchOpenedDetails` (app.js lines 619-626): every
`details` in the set that is connected and still carries the attribute is
closed and untagged. -/
def closeOpenedAux (set : List Nat) : Nat → List Det → List Det
  | _, [] => []
  | i, d :: ds =>
    (if set.contains i && d.connected && d.tagged then
       { d with «open» := false, tagged := false }
     else d) :: closeOpenedAux set (i + 1) ds

/-- Per-`details` body of `searchAndHighlightInCard` (app.js lines 509-524):
highlight (recording whether markers were inserted), and if the `details`
matched while closed, open it and tag it.  Disconnected `details` are not
reached by `document.querySelectorAll('section .card')`. -/
def applyMatch (nq : Str) (d : Det) : Det :=
  if d.connected then
    (if detMatches nq d && !d.«open» then
      { d with marked := detMatches nq d, «open» := true, tagged := true }
    else { d with marked := detMatches nq d })
  else d

/-- Indices added to `openedBySearch` by the pass: the connected `details`
that match while closed. -/
def collectOpened (nq : Str) : Nat → List Det → List Nat
  | _, [] => []
  | i, d :: ds =>
    (if d.connected && detMatches nq d && !d.«open» then [i] else []) ++
    collectOpened nq (i + 1) ds

/-- Embedding of the debounced input handler installed by `setupSearch`
(app.js lines 469-495): if the trimmed raw query is shorter than 3
characters, clear highlights and close the search-opened `details` (the set
is not cleared in this branch); otherwise normalize the query, clear, close,
reset the set, and run the match/highlight/open pass. -/
def onInput (raw : Str) (st : SearchState) : SearchState :=
  if (trim raw).length < 3 then
    { dets := closeOpenedAux st.openedBySearch 0 (clearMarks st.dets),
      openedBySearch := st.openedBySearch }
  else
    { dets := (closeOpenedAux st.openedBySearch 0 (clearMarks st.dets)).map
        (applyMatch (normalize (trim raw))),
      openedBySearch := collectOpened (normalize (trim raw)) 0
        (closeOpenedAux st.openedBySearch 0 (clearMarks st.dets)) }

/-- Default `details` used with `List.getD`. -/
def detDfl : Det := ⟨[], false, false, false, false⟩

/-- Well-formedness of the engine state, established by construction in the
source: a connected `details` carrying `data-opened-by-search` is in the
`openedBySearch` set (attribute and set are always written together; the set
survives the short-query branch but the attribute check skips its stale
entries). -/
def wfState (st : SearchState) : Prop :=
  ∀ i, i < st.dets.length → (st.dets.getD i detDfl).tagged = true →
    (st.dets.getD i detDfl).connected = true →
    st.openedBySearch.contains i = true

/-! Model of the top-level statements touching possibly-missing elements
(claim C7).  A page is a list of elements with an optional id and classes. -/

/-- A page element, for the element-lookup model. -/
structure El where
  elId : Option Str
  classes : List Str
deriving DecidableEq

/-- A page: its elements in document order. -/
structure PageDoc where
  elements : List El
deriving DecidableEq

/-- Model of `document.getElementById`. -/
def getElementById (d : PageDoc) (s : Str) : Option El :=
  d.elements.find? (fun e => e.elId == some s)

/-- Model of `document.querySelector('.c')`: first element carrying the
class. -/
def querySelectorClass (d : PageDoc) (c : Str) : Option El :=
  d.elements.find? (fun e => e.classes.contains c)

/-- The JS error raised by reading `addEventListener` on `null`. -/
def typeErrorMsg : Str :=
  "TypeError: Cannot read properties of null (reading addEventListener)".toList

/-- The id `q` of the search input. -/
def qId : Str := "q".toList

/-- The class `search` of the search form. -/
def searchCls : Str := "search".toList

/-- Embedding of app.js line 311:
`document.querySelector('.search').addEventListener('submit', ...)` — no null
guard, so a page without a `.search` element raises a `TypeError`; the Boolean
records whether the listener was attached. -/
def submitSuppression (d : PageDoc) : Except Str Bool :=
  match querySelectorClass d searchCls with
  | none => .error typeErrorMsg
  | some _ => .ok true

/-- Embedding of the guard of `setupSearch` (app.js lines 462-464):
`const input = document.getElementById('q'); if (!input) return;` — the
Boolean records whether the engine was attached. -/
def setupSearchInit (d : PageDoc) : Except Str Bool :=
  match getElementById d qId with
  | none => .ok false
  | some _ => .ok true

/-- Embedding of the guard of the first revision's handler registration
(app.js lines 96-98): `if (q) { q.addEventListener(...) }`. -/
def qHandlerInit (d : PageDoc) : Except Str Bool :=
  match getElementById d qId with
  | none => .ok false
  | some _ => .ok true

theorem eqBy_charEq_iff (xs ys : Str) : eqBy charEq xs ys = true ↔ xs = ys := by
  induction xs generalizing ys with
  | nil => cases ys <;> simp [eqBy]
  | cons a as ih =>
    cases ys with
    | nil => simp [eqBy]
    | cons b bs => simp [eqBy, charEq, ih]

theorem occursAtBy_bound {ceq : Char → Char → Bool} {text query : Str} {j : Nat}
    (h : occursAtBy ceq text query j = true) : j + query.length ≤ text.length := by
  have := (Bool.and_eq_true _ _).mp h
  exact of_decide_eq_true this.1

theorem occursAtBy_charEq_slice {text query : Str} {j : Nat}
    (h : occursAtBy charEq text query j = true) :
    (text.drop j).take query.length = query := by
  have := (Bool.and_eq_true _ _).mp h
  exact (eqBy_charEq_iff _ _).mp this.2

theorem indexOfFromBy_some {ceq : Char → Char → Bool} {text query : Str}
    {i j : Nat} (h : indexOfFromBy ceq text query i = some j) :
    i ≤ j ∧ occursAtBy ceq text query j = true := by
  have hp := List.find?_some h
  have := (Bool.and_eq_true _ _).mp hp
  exact ⟨of_decide_eq_true this.1, this.2⟩

theorem scanLoop_mem {ceq : Char → Char → Bool} {text query : Str} :
    ∀ (fuel i : Nat) (r : Range), r ∈ scanLoop ceq text query fuel i →
      i ≤ r.start ∧ r.«end» = r.start + query.length ∧
      occursAtBy ceq text query r.start = true := by
  intro fuel
  induction fuel with
  | zero => intro i r hr; simp [scanLoop] at hr
  | succ fuel ih =>
    intro i r hr
    simp only [scanLoop] at hr
    split at hr
    · cases hfind : indexOfFromBy ceq text query i with
      | none => rw [hfind] at hr; simp at hr
      | some j =>
        rw [hfind] at hr
        have hj := indexOfFromBy_some hfind
        simp only [List.mem_cons] at hr
        rcases hr with hr | hr
        · subst hr; exact ⟨hj.1, rfl, hj.2⟩
        · have := ih (j + query.length) r hr
          exact ⟨le_trans (le_trans hj.1 (Nat.le_add_right _ _)) this.1,
                 this.2.1, this.2.2⟩
    · simp at hr

/-- Simultaneous structural induction over `Node` and `NodeList`. -/
theorem nodePair_ind (P : Node → Prop) (Q : NodeList → Prop)
    (h1 : ∀ s, P (.text s))
    (h2 : ∀ t c cs, Q cs → P (.elem t c cs))
    (h3 : Q .nil)
    (h4 : ∀ n ns, P n → Q ns → Q (.cons n ns)) :
    (∀ n, P n) ∧ (∀ ns, Q ns) :=
  ⟨fun n => Node.rec h1 h2 h3 h4 n, fun ns => NodeList.rec h1 h2 h3 h4 ns⟩

theorem scanLoop_pairwise {ceq : Char → Char → Bool} {text query : Str}
    (hq : query ≠ []) :
    ∀ (fuel i : Nat),
      List.Pairwise (fun a b : Range => a.start < b.start ∧ a.«end» ≤ b.start)
        (scanLoop ceq text query fuel i) := by
  have hlen : 0 < query.length := List.length_pos.mpr hq
  intro fuel
  induction fuel with
  | zero => intro i; simp [scanLoop]
  | succ fuel ih =>
    intro i
    simp only [scanLoop]
    split
    · cases hfind : indexOfFromBy ceq text query i with
      | none => simp
      | some j =>
        refine List.Pairwise.cons ?_ (ih (j + query.length))
        intro b hb
        have hbm := scanLoop_mem fuel (j + query.length) b hb
        constructor
        · exact lt_of_lt_of_le (Nat.lt_add_of_pos_right hlen) hbm.1
        · exact hbm.1
    · simp

/-- C10: for every text and non-empty query, `findAllOccurrences` returns
ranges sorted in strictly increasing start order and pairwise disjoint, each
of length equal to the query's length with the text's slice at the range equal
to the query; for the empty query it returns the empty list. -/
theorem claimC10 (text query : Str) :
    (query ≠ [] →
      List.Pairwise (fun a b : Range => a.start < b.start ∧ a.«end» ≤ b.start)
        (findAllOccurrences text query) ∧
      ∀ r ∈ findAllOccurrences text query,
        r.«end» = r.start + query.length ∧
        (text.drop r.start).take query.length = query) ∧
    (query = [] → findAllOccurrences text query = []) := by
  constructor
  · intro hq
    unfold findAllOccurrences
    rw [if_neg hq]
    refine ⟨scanLoop_pairwise hq _ _, ?_⟩
    intro r hr
    have h := scanLoop_mem _ _ r hr
    exact ⟨h.2.1, occursAtBy_charEq_slice h.2.2⟩
  · intro hq
    simp [findAllOccurrences, hq]

/-- Witness for C10 at the concrete text `abcab` and query `ab`. -/
theorem claimC10_witness :
    List.Pairwise (fun a b : Range => a.start < b.start ∧ a.«end» ≤ b.start)
      (findAllOccurrences ("abcab".toList) ("ab".toList)) :=
  ((claimC10 ("abcab".toList) ("ab".toList)).1 (by decide)).1

/-- C1 (failing input): for the text node `José` (NFC) and the query `jose`,
the normalize-based containment check of `highlightInElement` reports a match
(both sides normalized identically), but the `accentInsensitiveRegex` — built
from the normalized query yet executed against the raw text — finds nothing,
so the node is left unchanged and the reported hit is `false`: the claimed
consistent two-sided normalization does not hold in the code. -/
theorem claimC1 :
    includes (normalize (['J','o','s','é'])) (normalize (['j','o','s','e'])) = true ∧
    highlightTextNode (normalize (['j','o','s','e'])) (['J','o','s','é']) =
      (.text (['J','o','s','é']), false) ∧
    (highlightInElement
      (.elem ("P".toList) [] (.cons (.text (['J','o','s','é'])) .nil))
      (normalize (['j','o','s','e']))).2 = false := by
  refine ⟨by decide, rfl, rfl⟩

/-- C4 (counterexample): the live matching paths treat `cat` as a plain
substring, so the query `cat` does match the text `category`, both in the
first revision's `matches` and in `highlightInElement`'s per-node hit. -/
theorem claimC4_counterexample :
    matchesEl ("category".toList) (['c','a','t']) = true ∧
    (highlightTextNode (normalize (['c','a','t'])) ("category".toList)).2 = true := by
  decide

/-- C4 (amended): `buildSearchRegex` produces a whole-word pattern for `cat`
(no whitespace, length 3) and a substring pattern for `ca`; under its regex
semantics `cat` does not match `category` but matches `the cat sat`, and `ca`
matches `category` — but `buildSearchRegex` is dead code: the live matcher and
highlighter use plain substring matching, so `cat` does match `category` in
the actual search pass. -/
theorem claimC4 :
    (buildSearchRegex (['c','a','t'])).wholeWord = true ∧
    (buildSearchRegex (['c','a'])).wholeWord = false ∧
    (buildSearchRegex ("a cat".toList)).wholeWord = false ∧
    regexTest (buildSearchRegex (['c','a','t'])) ("category".toList) = false ∧
    regexTest (buildSearchRegex (['c','a','t'])) ("the cat sat".toList) = true ∧
    regexTest (buildSearchRegex (['c','a'])) ("category".toList) = true ∧
    matchesEl ("category".toList) (['c','a','t']) = true ∧
    (highlightTextNode (['c','a','t']) ("category".toList)).2 = true := by
  decide

/-- C7 (failing input): on a page with no `.search` element (and no `#q`
input), the guarded paths (`setupSearch`, the first revision's handler
registration) degrade to no-ops, but the unguarded top-level statement
`document.querySelector('.search').addEventListener('submit', ...)` of
app.js line 311 raises a `TypeError` instead of degrading to a no-op. -/
theorem claimC7 :
    getElementById ⟨[]⟩ qId = none ∧
    querySelectorClass ⟨[]⟩ searchCls = none ∧
    setupSearchInit ⟨[]⟩ = .ok false ∧
    qHandlerInit ⟨[]⟩ = .ok false ∧
    submitSuppression ⟨[]⟩ = .error typeErrorMsg :=
  ⟨rfl, rfl, rfl, rfl, rfl⟩

/-- C9: the MutationObserver callback changes no state when the query is
empty or some `details.faq` is open; whenever it does change state, the query
was active and no `details.faq` was open; and in that situation its whole
effect is opening the first visible `details.faq`. -/
theorem claimC9 (qValue : Option Str) (dets : List FaqDet) :
    (observerTerm qValue = [] ∨ dets.any (fun d => d.«open») = true →
      observerCallback qValue dets = dets) ∧
    (observerCallback qValue dets ≠ dets →
      observerTerm qValue ≠ [] ∧ dets.any (fun d => d.«open») = false) ∧
    (observerTerm qValue ≠ [] → dets.any (fun d => d.«open») = false →
      observerCallback qValue dets = openFirstVisible dets) := by
  refine ⟨?_, ?_, ?_⟩
  · rintro (h | h)
    · simp [observerCallback, h]
    · by_cases he : (observerTerm qValue).isEmpty
      · simp [observerCallback, he]
      · simp [observerCallback, he, h]
  · intro hne
    by_cases he : (observerTerm qValue).isEmpty
    · simp [observerCallback, he] at hne
    · by_cases ho : dets.any (fun d => d.«open») = true
      · simp [observerCallback, he, ho] at hne
      · refine ⟨by simpa [List.isEmpty_iff] using he, by simpa using ho⟩
  · intro ht ho
    have he : (observerTerm qValue).isEmpty = false := by
      simpa [List.isEmpty_iff] using ht
    simp [observerCallback, he, ho]

/-- Witness for C9: with the active query `faq` and a single closed, visible
`details.faq`, the callback is exactly `openFirstVisible`. -/
theorem claimC9_witness :
    observerCallback (some ("faq".toList)) [⟨false, false⟩] =
      openFirstVisible [⟨false, false⟩] :=
  (claimC9 (some ("faq".toList)) [⟨false, false⟩]).2.2 (by decide) (by decide)

theorem getD_map {α β : Type} (f : α → β) (l : List α) (i : Nat) (da : α)
    (db : β) (h : i < l.length) : (l.map f).getD i db = f (l.getD i da) := by
  have h2 : i < (l.map f).length := by simpa using h
  rw [List.getD_eq_getElem _ _ h2, List.getD_eq_getElem _ _ h, List.getElem_map]

theorem openFirstFaq_getD (k : Nat) (items : List Item1) (i : Nat) :
    (openFirstFaqDetails k items).getD i itemDfl = items.getD i itemDfl ∨
    (openFirstFaqDetails k items).getD i itemDfl =
      { items.getD i itemDfl with «open» := true } := by
  induction items generalizing i with
  | nil => left; rfl
  | cons it rest ih =>
    simp only [openFirstFaqDetails]
    split
    · cases i with
      | zero => right; simp
      | succ j => left; simp
    · cases i with
      | zero => left; simp
      | succ j => simpa using ih j

theorem step3_getD (term : Str) (sections : List Sec1) (items : List Item1)
    (i : Nat) :
    (step3 term sections items).getD i itemDfl = items.getD i itemDfl ∨
    (step3 term sections items).getD i itemDfl =
      { items.getD i itemDfl with «open» := true } := by
  unfold step3
  split
  · cases firstMatchedSec term sections with
    | none => left; rfl
    | some k => exact openFirstFaq_getD k items i
  · left; rfl

theorem passItem_of_sec (term : Str) (sections : List Sec1) (it : Item1)
    (h : showBySectionOf term sections it = true) :
    (passItem term sections it).display = [] ∧
    (it.isChip = false → it.isDetails = true →
      (passItem term sections it).«open» = true) := by
  unfold passItem
  by_cases hc : it.isChip
  · simp [hc]
  · simp only [Bool.not_eq_true] at hc
    by_cases hd : it.isDetails
    · simp [hc, h, hd]
    · simp only [Bool.not_eq_true] at hd
      simp [hc, h, hd]

/-- C3: in the first revision's pass, a non-empty query matching a section's
heading makes every item of that section shown, and every non-chip `DETAILS`
item of that section force-opened, regardless of the item's own text. -/
theorem claimC3 (d : Doc1) (raw : Str) (i k : Nat)
    (hi : i < d.items.length)
    (hsec : (d.items.getD i itemDfl).secIdx = some k)
    (hmatch : secMatchAt (toLowerStr (trim raw)) d.sections k = true) :
    ((onQInput raw d).items.getD i itemDfl).display = [] ∧
    ((d.items.getD i itemDfl).isChip = false →
      (d.items.getD i itemDfl).isDetails = true →
      ((onQInput raw d).items.getD i itemDfl).«open» = true) := by
  have hsb : showBySectionOf (toLowerStr (trim raw)) d.sections
      (d.items.getD i itemDfl) = true := by
    unfold showBySectionOf
    rw [hsec]
    exact hmatch
  have hitem := passItem_of_sec (toLowerStr (trim raw)) d.sections
    (d.items.getD i itemDfl) hsb
  have hmap : (d.items.map (passItem (toLowerStr (trim raw)) d.sections)).getD
      i itemDfl = passItem (toLowerStr (trim raw)) d.sections
      (d.items.getD i itemDfl) :=
    getD_map _ _ _ itemDfl itemDfl hi
  have hitems : (onQInput raw d).items =
      step3 (toLowerStr (trim raw)) d.sections
        (d.items.map (passItem (toLowerStr (trim raw)) d.sections)) := rfl
  rw [hitems]
  rcases step3_getD (toLowerStr (trim raw)) d.sections
      (d.items.map (passItem (toLowerStr (trim raw)) d.sections)) i with h | h <;>
    rw [h, hmap]
  · exact hitem
  · exact ⟨hitem.1, fun _ _ => rfl⟩

/-- Witness for C3 at the spec's example: a section headed `Shipping`, an
unrelated `details` item with text `returns policy` inside it, and the query
`shipping`. -/
theorem claimC3_witness :
    ((onQInput ("shipping".toList)
      ⟨[⟨some ("Shipping".toList), false⟩],
       [⟨"returns policy".toList, false, true, true, some 0, [], false, false⟩],
       []⟩).items.getD 0 itemDfl).display = [] ∧
    (((⟨[⟨some ("Shipping".toList), false⟩],
       [⟨"returns policy".toList, false, true, true, some 0, [], false, false⟩],
       []⟩ : Doc1).items.getD 0 itemDfl).isChip = false →
      ((⟨[⟨some ("Shipping".toList), false⟩],
       [⟨"returns policy".toList, false, true, true, some 0, [], false, false⟩],
       []⟩ : Doc1).items.getD 0 itemDfl).isDetails = true →
      ((onQInput ("shipping".toList)
        ⟨[⟨some ("Shipping".toList), false⟩],
         [⟨"returns policy".toList, false, true, true, some 0, [], false, false⟩],
         []⟩).items.getD 0 itemDfl).«open» = true) :=
  claimC3 _ _ 0 0 (by decide) (by decide) (by decide)

theorem passEmptyEls_len (vc : Nat) (els : List EmptyEl)
    (h : els.length ≤ 1) : (passEmptyEls vc els).length = 1 := by
  cases els with
  | nil => simp [passEmptyEls]
  | cons e rest =>
    cases rest with
    | nil => simp [passEmptyEls]
    | cons e2 rest2 => simp at h

theorem step3_empty_term (sections : List Sec1) (items : List Item1) :
    step3 ([]) sections items = items := by
  simp [step3]

theorem passEmptyEls_mem (vc : Nat) (els : List EmptyEl)
    (h : els.length ≤ 1) :
    ∀ e ∈ passEmptyEls vc els,
      e.textContent = (if vc = 0 then noResultsMsg1 else []) ∧
      e.display = (if vc = 0 then blockStr else noneStr) := by
  intro e he
  have hform : passEmptyEls vc els =
      [⟨if vc == 0 then noResultsMsg1 else [],
        if vc == 0 then blockStr else noneStr⟩] := by
    cases els with
    | nil => rfl
    | cons e1 rest =>
      cases rest with
      | nil => rfl
      | cons e2 rest2 => simp at h
  rw [hform] at he
  simp only [List.mem_singleton] at he
  subst he
  by_cases hvc : vc = 0 <;> simp [hvc]

/-- C8 (amended): after every pass the notice exists exactly once (given the
page authored at most one), its text is non-empty and it is shown iff the
visible-unit count is zero; the empty query restores every unit to visible
with no markers remaining, and hides the notice provided at least one
non-chip filterable unit exists. -/
theorem claimC8 (d : Doc1) (raw : Str) (hlen : d.emptyEls.length ≤ 1) :
    (onQInput raw d).emptyEls.length = 1 ∧
    (∀ e ∈ (onQInput raw d).emptyEls,
      ((e.textContent ≠ [] ∧ e.display = blockStr) ↔
        visCount (toLowerStr (trim raw)) d.sections d.items = 0)) ∧
    (toLowerStr (trim raw) = [] →
      (∀ it ∈ (onQInput raw d).items, it.display = [] ∧ it.hasMarks = false) ∧
      (∀ s ∈ (onQInput raw d).sections, s.h2Marks = false)) ∧
    (toLowerStr (trim raw) = [] →
      (∃ it ∈ d.items, it.isChip = false) →
      ∀ e ∈ (onQInput raw d).emptyEls, e.display = noneStr) := by
  have hEls : (onQInput raw d).emptyEls =
      passEmptyEls (visCount (toLowerStr (trim raw)) d.sections d.items)
        d.emptyEls := rfl
  refine ⟨?_, ?_, ?_, ?_⟩
  · rw [hEls]; exact passEmptyEls_len _ _ hlen
  · intro e he
    rw [hEls] at he
    obtain ⟨hm1, hm2⟩ := passEmptyEls_mem _ _ hlen e he
    by_cases hvc : visCount (toLowerStr (trim raw)) d.sections d.items = 0
    · rw [if_pos hvc] at hm1
      rw [if_pos hvc] at hm2
      simp only [hvc, iff_true]
      refine ⟨?_, hm2⟩
      rw [hm1]
      decide
    · rw [if_neg hvc] at hm1
      simp only [hvc, iff_false]
      rintro ⟨ha, -⟩
      exact ha hm1
  · intro hterm
    constructor
    · intro it hit
      have hitems : (onQInput raw d).items =
          step3 (toLowerStr (trim raw)) d.sections
            (d.items.map (passItem (toLowerStr (trim raw)) d.sections)) := rfl
      rw [hitems, hterm, step3_empty_term] at hit
      rcases List.mem_map.mp hit with ⟨x, _, hx⟩
      subst hx
      unfold passItem
      by_cases hc : x.isChip
      · simp [hc]
      · have hself : matchesEl x.textContent ([] : Str) = true := by
          simp [matchesEl]
        simp [hc, hself]
    · intro s hs
      have hsecs : (onQInput raw d).sections =
          d.sections.map (fun s => { s with h2Marks := false }) := rfl
      rw [hsecs] at hs
      rcases List.mem_map.mp hs with ⟨x, _, hx⟩
      subst hx
      rfl
  · intro hterm hex
    rcases hex with ⟨it, hit, hchip⟩
    have hvc : visCount (toLowerStr (trim raw)) d.sections d.items ≠ 0 := by
      have hmemf : it ∈ d.items.filter
          (isShownNonChip (toLowerStr (trim raw)) d.sections) := by
        refine List.mem_filter.mpr ⟨hit, ?_⟩
        unfold isShownNonChip
        rw [hterm, hchip]
        simp [matchesEl]
      unfold visCount
      intro hzero
      rw [List.length_eq_zero] at hzero
      rw [hzero] at hmemf
      simp at hmemf
    intro e he
    rw [hEls] at he
    obtain ⟨-, hm2⟩ := passEmptyEls_mem _ _ hlen e he
    rw [if_neg hvc] at hm2
    exact hm2

/-- C8 (counterexample): on a page with no filterable units, clearing the
query leaves the visible-unit count at zero, so the pass shows the notice
(display `block` with non-empty text) instead of hiding it. -/
theorem claimC8_counterexample :
    (onQInput ([]) ⟨[], [], []⟩).emptyEls = [⟨noResultsMsg1, blockStr⟩] ∧
    blockStr ≠ noneStr ∧ noResultsMsg1 ≠ [] := by
  decide

/-- Witness for C8 on a page with one non-chip unit and the empty query. -/
theorem claimC8_witness :
    (onQInput ([])
      ⟨[], [⟨"hola".toList, false, false, false, none, [], false, false⟩],
       []⟩).emptyEls.length = 1 :=
  (claimC8 ⟨[], [⟨"hola".toList, false, false, false, none, [], false, false⟩],
    []⟩ ([]) (by decide)).1

theorem trim_length_le (s : Str) : (trim s).length ≤ s.length := by
  unfold trim
  calc ((s.dropWhile isJsSpace).reverse.dropWhile isJsSpace).reverse.length
      = ((s.dropWhile isJsSpace).reverse.dropWhile isJsSpace).length := by
        rw [List.length_reverse]
    _ ≤ (s.dropWhile isJsSpace).reverse.length :=
        (List.dropWhile_sublist _).length_le
    _ = (s.dropWhile isJsSpace).length := by rw [List.length_reverse]
    _ ≤ s.length := (List.dropWhile_sublist _).length_le

theorem closeOpenedAux_length (set : List Nat) (ds : List Det) (start : Nat) :
    (closeOpenedAux set start ds).length = ds.length := by
  induction ds generalizing start with
  | nil => rfl
  | cons d tl ih => simp [closeOpenedAux, ih]

theorem closeOpenedAux_getD (set : List Nat) (ds : List Det) (start i : Nat)
    (h : i < ds.length) :
    (closeOpenedAux set start ds).getD i detDfl =
      (if set.contains (start + i) && (ds.getD i detDfl).connected &&
          (ds.getD i detDfl).tagged then
        { ds.getD i detDfl with «open» := false, tagged := false }
      else ds.getD i detDfl) := by
  induction ds generalizing start i with
  | nil => simp at h
  | cons d tl ih =>
    cases i with
    | zero => simp [closeOpenedAux]
    | succ j =>
      have hj : j < tl.length := by simpa using h
      have harr : start + (j + 1) = (start + 1) + j := by omega
      simp only [closeOpenedAux, List.getD_cons_succ, harr]
      exact ih (start + 1) j hj

theorem collectOpened_mem (nq : Str) (ds : List Det) (start i : Nat)
    (h : i < ds.length)
    (hc : ((ds.getD i detDfl).connected && detMatches nq (ds.getD i detDfl) &&
      !(ds.getD i detDfl).«open») = true) :
    (start + i) ∈ collectOpened nq start ds := by
  induction ds generalizing start i with
  | nil => simp at h
  | cons d tl ih =>
    cases i with
    | zero =>
      simp only [List.getD_cons_zero] at hc
      simp [collectOpened, hc]
    | succ j =>
      have hj : j < tl.length := by simpa using h
      have hc' : ((tl.getD j detDfl).connected &&
          detMatches nq (tl.getD j detDfl) &&
          !(tl.getD j detDfl).«open») = true := by simpa using hc
      have harr : start + (j + 1) = (start + 1) + j := by omega
      rw [harr]
      simp only [collectOpened]
      exact List.mem_append.mpr (Or.inr (ih (start + 1) j hj hc'))

theorem contains_of_mem {l : List Nat} {a : Nat} (h : a ∈ l) :
    l.contains a = true := by
  simpa using h

theorem clearMarks_length (ds : List Det) : (clearMarks ds).length = ds.length := by
  simp [clearMarks]

theorem closeClear_step (set : List Nat) (j : Nat) (d : Det) :
    (if set.contains j &&
        (if d.connected then { d with marked := false } else d).connected &&
        (if d.connected then { d with marked := false } else d).tagged then
      { (if d.connected then { d with marked := false } else d) with
        «open» := false, tagged := false }
    else (if d.connected then { d with marked := false } else d)) =
    (if d.connected then
      (if set.contains j && d.tagged then
        { d with marked := false, «open» := false, tagged := false }
      else { d with marked := false })
    else d) := by
  cases d with
  | mk texts op tg cn mkd =>
    by_cases hs : set.contains j = true <;>
      cases cn <;> cases tg <;> simp [hs]

theorem shortPass_getD (st : SearchState) (j : Nat) (hj : j < st.dets.length) :
    (closeOpenedAux st.openedBySearch 0 (clearMarks st.dets)).getD j detDfl =
      (if (st.dets.getD j detDfl).connected then
        (if st.openedBySearch.contains j && (st.dets.getD j detDfl).tagged then
          { st.dets.getD j detDfl with
            marked := false, «open» := false, tagged := false }
        else { st.dets.getD j detDfl with marked := false })
      else st.dets.getD j detDfl) := by
  have hlenc : j < (clearMarks st.dets).length := by
    rw [clearMarks_length]; exact hj
  have hclear : (clearMarks st.dets).getD j detDfl =
      (if (st.dets.getD j detDfl).connected then
        { st.dets.getD j detDfl with marked := false }
      else st.dets.getD j detDfl) := by
    unfold clearMarks
    rw [getD_map _ _ _ detDfl detDfl hj]
  rw [closeOpenedAux_getD _ _ 0 j hlenc, hclear]
  simp only [Nat.zero_add]
  exact closeClear_step _ _ _

theorem onInput_dets_length (raw : Str) (st : SearchState) :
    (onInput raw st).dets.length = st.dets.length := by
  unfold onInput
  split <;> simp [closeOpenedAux_length, clearMarks_length]

theorem detMatches_congr (nq : Str) (d d' : Det) (h : d.texts = d'.texts) :
    detMatches nq d = detMatches nq d' := by
  unfold detMatches
  rw [h]

theorem onInput_short (raw : Str) (st : SearchState)
    (hb : (trim raw).length < 3) :
    onInput raw st =
      { dets := closeOpenedAux st.openedBySearch 0 (clearMarks st.dets),
        openedBySearch := st.openedBySearch } := by
  unfold onInput
  rw [if_pos hb]

theorem onInput_long (raw : Str) (st : SearchState)
    (hb : ¬ (trim raw).length < 3) :
    onInput raw st =
      { dets := (closeOpenedAux st.openedBySearch 0 (clearMarks st.dets)).map
          (applyMatch (normalize (trim raw))),
        openedBySearch := collectOpened (normalize (trim raw)) 0
          (closeOpenedAux st.openedBySearch 0 (clearMarks st.dets)) } := by
  unfold onInput
  rw [if_neg hb]

/-- C5: a raw query shorter than 3 characters makes the pass behave exactly as
the empty query: the resulting state is the same as for the empty query, no
connected `details` keeps a marker, and every connected `details` opened and
tagged by a previous search is closed. -/
theorem claimC5 (st : SearchState) (raw : Str) (hshort : raw.length < 3) :
    onInput raw st = onInput ([]) st ∧
    (∀ i, i < st.dets.length →
      ((st.dets.getD i detDfl).connected = true →
        ((onInput raw st).dets.getD i detDfl).marked = false) ∧
      (st.openedBySearch.contains i = true →
        (st.dets.getD i detDfl).tagged = true →
        (st.dets.getD i detDfl).connected = true →
        ((onInput raw st).dets.getD i detDfl).«open» = false ∧
        ((onInput raw st).dets.getD i detDfl).tagged = false)) := by
  have hb : (trim raw).length < 3 :=
    lt_of_le_of_lt (trim_length_le raw) hshort
  have hb0 : (trim ([] : Str)).length < 3 := by decide
  have hS := onInput_short raw st hb
  have hS0 := onInput_short ([]) st hb0
  refine ⟨by rw [hS, hS0], ?_⟩
  intro i hi
  have hdets : (onInput raw st).dets =
      closeOpenedAux st.openedBySearch 0 (clearMarks st.dets) := by
    rw [hS]
  have hget := shortPass_getD st i hi
  rw [hdets, hget]
  constructor
  · intro hconn
    rw [if_pos hconn]
    split <;> rfl
  · intro hcont htag hconn
    rw [if_pos hconn, if_pos (by rw [hcont, htag]; rfl)]
    exact ⟨rfl, rfl⟩

/-- Witness for C5 at a concrete state with one tagged, opened, connected
`details` and the two-character query `ab`. -/
theorem claimC5_witness :
    onInput ("ab".toList) ⟨[⟨[], true, true, true, true⟩], [0]⟩ =
      onInput ([]) ⟨[⟨[], true, true, true, true⟩], [0]⟩ :=
  (claimC5 ⟨[⟨[], true, true, true, true⟩], [0]⟩ ("ab".toList) (by decide)).1

/-- C6: (a) a `details` that the pass force-opens ends tagged; (b) a tagged,
connected `details` is closed and untagged by any pass under which it no
longer qualifies (query cleared below 3 characters, or no longer matching);
(c) a `details` opened without a tag (opened by the user) is never closed nor
tagged by a pass; (d) passes preserve the tagged-implies-in-set invariant. -/
theorem claimC6 (st : SearchState) (raw : Str) (hwf : wfState st) (i : Nat)
    (hi : i < st.dets.length) :
    ((st.dets.getD i detDfl).«open» = false →
      ((onInput raw st).dets.getD i detDfl).«open» = true →
      ((onInput raw st).dets.getD i detDfl).tagged = true) ∧
    ((st.dets.getD i detDfl).tagged = true →
      (st.dets.getD i detDfl).connected = true →
      ((trim raw).length < 3 ∨
        detMatches (normalize (trim raw)) (st.dets.getD i detDfl) = false) →
      ((onInput raw st).dets.getD i detDfl).«open» = false ∧
      ((onInput raw st).dets.getD i detDfl).tagged = false) ∧
    ((st.dets.getD i detDfl).tagged = false →
      (st.dets.getD i detDfl).«open» = true →
      ((onInput raw st).dets.getD i detDfl).«open» = true ∧
      ((onInput raw st).dets.getD i detDfl).tagged = false) ∧
    wfState (onInput raw st) := by
  by_cases hb : (trim raw).length < 3
  · -- short branch: the pass is clear + closeSearchOpenedDetails
    have hS := onInput_short raw st hb
    have hdets : (onInput raw st).dets =
        closeOpenedAux st.openedBySearch 0 (clearMarks st.dets) := by rw [hS]
    have hset : (onInput raw st).openedBySearch = st.openedBySearch := by
      rw [hS]
    refine ⟨?_, ?_, ?_, ?_⟩
    · intro hopen hopen'
      exfalso
      rw [hdets, shortPass_getD st i hi] at hopen'
      by_cases hc : (st.dets.getD i detDfl).connected = true
      · rw [if_pos hc] at hopen'
        by_cases ht : (st.openedBySearch.contains i &&
            (st.dets.getD i detDfl).tagged) = true
        · rw [if_pos ht] at hopen'
          exact Bool.noConfusion hopen'
        · rw [if_neg ht] at hopen'
          have h2 : (st.dets.getD i detDfl).«open» = true := hopen'
          rw [hopen] at h2
          exact Bool.noConfusion h2
      · rw [if_neg hc] at hopen'
        rw [hopen] at hopen'
        exact Bool.noConfusion hopen'
    · intro htag hconn hq
      rw [hdets, shortPass_getD st i hi, if_pos hconn,
        if_pos (by rw [hwf i hi htag hconn, htag]; rfl)]
      exact ⟨rfl, rfl⟩
    · intro htag hopen
      rw [hdets, shortPass_getD st i hi]
      by_cases hc : (st.dets.getD i detDfl).connected = true
      · rw [if_pos hc, if_neg (by rw [htag]; simp)]
        exact ⟨hopen, htag⟩
      · rw [if_neg hc]
        exact ⟨hopen, htag⟩
    · intro j hj htag hconn
      rw [onInput_dets_length] at hj
      rw [hset]
      rw [hdets, shortPass_getD st j hj] at htag hconn
      by_cases hc : (st.dets.getD j detDfl).connected = true
      · rw [if_pos hc] at htag
        by_cases ht : (st.openedBySearch.contains j &&
            (st.dets.getD j detDfl).tagged) = true
        · rw [if_pos ht] at htag
          exact Bool.noConfusion htag
        · rw [if_neg ht] at htag
          have htg : (st.dets.getD j detDfl).tagged = true := htag
          exact hwf j hj htg hc
      · rw [if_neg hc] at htag hconn
        exact hwf j hj htag hconn
  · -- long branch: clear + close + match/highlight/open
    have hS := onInput_long raw st hb
    have hdets : (onInput raw st).dets =
        (closeOpenedAux st.openedBySearch 0 (clearMarks st.dets)).map
          (applyMatch (normalize (trim raw))) := by rw [hS]
    have hset : (onInput raw st).openedBySearch =
        collectOpened (normalize (trim raw)) 0
          (closeOpenedAux st.openedBySearch 0 (clearMarks st.dets)) := by
      rw [hS]
    have hlen1 : ∀ j, j < st.dets.length →
        j < (closeOpenedAux st.openedBySearch 0 (clearMarks st.dets)).length := by
      intro j hj
      rw [closeOpenedAux_length, clearMarks_length]
      exact hj
    have hmapget : ∀ j, j < st.dets.length →
        ((closeOpenedAux st.openedBySearch 0 (clearMarks st.dets)).map
          (applyMatch (normalize (trim raw)))).getD j detDfl =
        applyMatch (normalize (trim raw))
          ((closeOpenedAux st.openedBySearch 0 (clearMarks st.dets)).getD j
            detDfl) := by
      intro j hj
      exact getD_map _ _ _ detDfl detDfl (hlen1 j hj)
    refine ⟨?_, ?_, ?_, ?_⟩
    · intro hopen hopen'
      have hopen1 : ((closeOpenedAux st.openedBySearch 0
          (clearMarks st.dets)).getD i detDfl).«open» = false := by
        rw [shortPass_getD st i hi]
        by_cases hc : (st.dets.getD i detDfl).connected = true
        · rw [if_pos hc]
          by_cases ht : (st.openedBySearch.contains i &&
              (st.dets.getD i detDfl).tagged) = true
          · rw [if_pos ht]
          · rw [if_neg ht]
            exact hopen
        · rw [if_neg hc]
          exact hopen
      rw [hdets, hmapget i hi] at hopen' ⊢
      set d1 := (closeOpenedAux st.openedBySearch 0
        (clearMarks st.dets)).getD i detDfl with hd1
      unfold applyMatch at hopen' ⊢
      by_cases hc1 : d1.connected = true
      · rw [if_pos hc1] at hopen' ⊢
        by_cases hc2 : (detMatches (normalize (trim raw)) d1 &&
            !d1.«open») = true
        · rw [if_pos hc2]
        · rw [if_neg hc2] at hopen'
          have h2 : d1.«open» = true := hopen'
          rw [hopen1] at h2
          exact Bool.noConfusion h2
      · rw [if_neg hc1] at hopen'
        have h2 : d1.«open» = true := hopen'
        rw [hopen1] at h2
        exact Bool.noConfusion h2
    · intro htag hconn hq
      have hnm : detMatches (normalize (trim raw)) (st.dets.getD i detDfl) =
          false := by
        rcases hq with hq | hq
        · exact absurd hq hb
        · exact hq
      have hclosed : (closeOpenedAux st.openedBySearch 0
          (clearMarks st.dets)).getD i detDfl =
          { st.dets.getD i detDfl with
            marked := false, «open» := false, tagged := false } := by
        rw [shortPass_getD st i hi, if_pos hconn,
          if_pos (by rw [hwf i hi htag hconn, htag]; rfl)]
      have hm2 : detMatches (normalize (trim raw))
          ({ st.dets.getD i detDfl with
             marked := false, «open» := false, tagged := false } : Det) =
          false := hnm
      rw [hdets, hmapget i hi, hclosed]
      unfold applyMatch
      rw [hm2, Bool.false_and]
      rw [if_pos (show ({ st.dets.getD i detDfl with
        marked := false, «open» := false, tagged := false } : Det).connected =
        true from hconn)]
      rw [if_neg (show ¬((false : Bool) = true) from by decide)]
      exact ⟨rfl, rfl⟩
    · intro htag hopen
      rw [hdets, hmapget i hi]
      by_cases hc : (st.dets.getD i detDfl).connected = true
      · have hpass1 : (closeOpenedAux st.openedBySearch 0
            (clearMarks st.dets)).getD i detDfl =
            { st.dets.getD i detDfl with marked := false } := by
          rw [shortPass_getD st i hi, if_pos hc, if_neg (by rw [htag]; simp)]
        rw [hpass1]
        unfold applyMatch
        rw [if_pos (show ({ st.dets.getD i detDfl with marked := false } :
          Det).connected = true from hc)]
        rw [if_neg (by
          rw [show ({ st.dets.getD i detDfl with marked := false } :
            Det).«open» = true from hopen]
          simp)]
        exact ⟨hopen, htag⟩
      · have hpass1 : (closeOpenedAux st.openedBySearch 0
            (clearMarks st.dets)).getD i detDfl = st.dets.getD i detDfl := by
          rw [shortPass_getD st i hi, if_neg hc]
        rw [hpass1]
        unfold applyMatch
        rw [if_neg hc]
        exact ⟨hopen, htag⟩
    · intro j hj htag hconn
      rw [onInput_dets_length] at hj
      rw [hset]
      rw [hdets, hmapget j hj] at htag hconn
      set d1 := (closeOpenedAux st.openedBySearch 0
        (clearMarks st.dets)).getD j detDfl with hd1
      by_cases hc1 : d1.connected = true
      · by_cases hc2 : (detMatches (normalize (trim raw)) d1 &&
            !d1.«open») = true
        · apply contains_of_mem
          have hcond : (((closeOpenedAux st.openedBySearch 0
              (clearMarks st.dets)).getD j detDfl).connected &&
              detMatches (normalize (trim raw))
                ((closeOpenedAux st.openedBySearch 0
                  (clearMarks st.dets)).getD j detDfl) &&
              !((closeOpenedAux st.openedBySearch 0
                  (clearMarks st.dets)).getD j detDfl).«open») = true := by
            rw [← hd1, hc1, Bool.true_and]
            exact hc2
          have hmem := collectOpened_mem (normalize (trim raw))
            (closeOpenedAux st.openedBySearch 0 (clearMarks st.dets)) 0 j
            (hlen1 j hj) hcond
          simpa using hmem
        · exfalso
          have htag1 : d1.tagged = true := by
            revert htag
            unfold applyMatch
            rw [if_pos hc1, if_neg hc2]
            intro h
            exact h
          rw [hd1, shortPass_getD st j hj] at htag1 hc1
          by_cases hc : (st.dets.getD j detDfl).connected = true
          · rw [if_pos hc] at htag1
            by_cases ht : (st.openedBySearch.contains j &&
                (st.dets.getD j detDfl).tagged) = true
            · rw [if_pos ht] at htag1
              exact Bool.noConfusion htag1
            · rw [if_neg ht] at htag1
              have htg : (st.dets.getD j detDfl).tagged = true := htag1
              have hco := hwf j hj htg hc
              rw [hco, htg] at ht
              exact ht rfl
          · rw [if_neg hc] at hc1
            exact hc hc1
      · exfalso
        revert hconn
        unfold applyMatch
        rw [if_neg hc1]
        intro hconn
        exact hc1 hconn

/-- Structural induction over `NodeList` alone. -/
theorem nodeList_ind (Q : NodeList → Prop) (h3 : Q .nil)
    (h4 : ∀ n ns, Q ns → Q (.cons n ns)) : ∀ ns, Q ns :=
  (nodePair_ind (fun _ => True) Q (fun _ => trivial) (fun _ _ _ _ => trivial)
    h3 (fun n ns _ hq => h4 n ns hq)).2

theorem chain_cons_nontext (n : Node) (hn : isTextNode n = false)
    (ns : NodeList) (h : chainNoAdj ns = true) :
    chainNoAdj (.cons n ns) = true := by
  cases ns with
  | nil => rfl
  | cons b rest => simp [chainNoAdj, hn, h]

theorem chain_cons_any_nontext (a m : Node) (hm : isTextNode m = false)
    (X : NodeList) (h : chainNoAdj (.cons m X) = true) :
    chainNoAdj (.cons a (.cons m X)) = true := by
  simp [chainNoAdj, hm, h]

theorem ciFindAll_bounds (s nq : Str) :
    ∀ r ∈ ciFindAll s nq, r.start ≤ r.«end» ∧ r.«end» ≤ s.length := by
  intro r hr
  have h := scanLoop_mem _ _ r hr
  have hb := occursAtBy_bound h.2.2
  constructor
  · rw [h.2.1]; exact Nat.le_add_right _ _
  · rw [h.2.1]; exact hb

theorem ciFindAll_pairwise (s nq : Str) (hq : nq ≠ []) :
    List.Pairwise (fun a b : Range => a.«end» ≤ b.start) (ciFindAll s nq) :=
  (scanLoop_pairwise hq _ _).imp (fun h => h.2)

theorem segs_text (s : Str) :
    ∀ (rs : List Range) (pos : Nat),
      (∀ r ∈ rs, r.start ≤ r.«end» ∧ r.«end» ≤ s.length) →
      List.Pairwise (fun a b : Range => a.«end» ≤ b.start) rs →
      (∀ r ∈ rs, pos ≤ r.start) →
      nodeListText (segs s pos rs) = s.drop pos := by
  intro rs
  induction rs with
  | nil =>
    intro pos _ _ _
    cases hdrop : s.drop pos with
    | nil => simp [segs, hdrop, nodeListText]
    | cons c rest =>
      simp [segs, hdrop, nodeListText, nodeText]
  | cons r rest ih =>
    intro pos habs hpw hpos
    have hr := habs r (List.mem_cons_self r rest)
    have hposr := hpos r (List.mem_cons_self r rest)
    have hpw' := List.pairwise_cons.mp hpw
    have hih := ih r.«end» (fun r' hr' => habs r' (List.mem_cons_of_mem r hr'))
      hpw'.2 (fun r' hr' => hpw'.1 r' hr')
    have hsplit1 : (s.drop pos).take (r.start - pos) ++ s.drop r.start =
        s.drop pos := by
      have h2 : (s.drop pos).drop (r.start - pos) = s.drop r.start := by
        rw [List.drop_drop]
        congr 1
        omega
      rw [← h2]
      exact List.take_append_drop _ _
    have hsplit2 : (s.drop r.start).take (r.«end» - r.start) ++ s.drop r.«end» =
        s.drop r.start := by
      have h2 : (s.drop r.start).drop (r.«end» - r.start) = s.drop r.«end» := by
        rw [List.drop_drop]
        congr 1
        omega
      rw [← h2]
      exact List.take_append_drop _ _
    by_cases hpre : ((s.drop pos).take (r.start - pos)).isEmpty = true
    · have hprenil : (s.drop pos).take (r.start - pos) = [] := by
        cases hx : (s.drop pos).take (r.start - pos) with
        | nil => rfl
        | cons a b => rw [hx] at hpre; simp at hpre
      simp only [segs, hpre, if_true]
      show ((s.drop r.start).take (r.«end» - r.start) ++ []) ++
        nodeListText (segs s r.«end» rest) = s.drop pos
      rw [hih, List.append_nil, hsplit2, ← hsplit1, hprenil, List.nil_append]
    · simp only [segs, hpre, if_false]
      show (s.drop pos).take (r.start - pos) ++
        (((s.drop r.start).take (r.«end» - r.start) ++ []) ++
          nodeListText (segs s r.«end» rest)) = s.drop pos
      rw [hih, List.append_nil, hsplit2, hsplit1]

theorem segs_chain (s : Str) :
    ∀ (rs : List Range) (pos : Nat), chainNoAdj (segs s pos rs) = true := by
  intro rs
  induction rs with
  | nil =>
    intro pos
    cases hdrop : s.drop pos with
    | nil => simp [segs, hdrop, chainNoAdj]
    | cons c rest2 => simp [segs, hdrop, chainNoAdj]
  | cons r rest ih =>
    intro pos
    by_cases hpre : ((s.drop pos).take (r.start - pos)).isEmpty = true
    · simp only [segs, hpre, if_true]
      refine chain_cons_nontext _ ?_ _ (ih r.«end»)
      rfl
    · simp only [segs, hpre, if_false]
      refine chain_cons_any_nontext _ _ ?_ _ ?_
      · rfl
      · refine chain_cons_nontext _ ?_ _ (ih r.«end»)
        rfl

theorem segs_noAdj (s : Str) :
    ∀ (rs : List Range) (pos : Nat), noAdjList (segs s pos rs) = true := by
  intro rs
  induction rs with
  | nil =>
    intro pos
    cases hdrop : s.drop pos with
    | nil => simp [segs, hdrop, noAdjList]
    | cons c rest2 => simp [segs, hdrop, noAdjList, noAdjNode]
  | cons r rest ih =>
    intro pos
    by_cases hpre : ((s.drop pos).take (r.start - pos)).isEmpty = true
    · simp only [segs, hpre, if_true]
      simp [noAdjList, noAdjNode, chainNoAdj, ih r.«end»]
    · simp only [segs, hpre, if_false]
      simp [noAdjList, noAdjNode, chainNoAdj, ih r.«end»]

theorem emptyText_nodeText (n : Node) (h : isEmptyTextNode n = true) :
    nodeText n = [] := by
  cases n with
  | text s =>
    cases s with
    | nil => rfl
    | cons c cs => simp [isEmptyTextNode] at h
  | elem t c cs => simp [isEmptyTextNode] at h

theorem dropEmpty_text :
    ∀ ns : NodeList, nodeListText (dropEmptyTexts ns) = nodeListText ns := by
  refine nodeList_ind _ rfl ?_
  intro n ns ih
  by_cases he : isEmptyTextNode n = true
  · simp only [dropEmptyTexts, he, if_true]
    show nodeListText (dropEmptyTexts ns) = nodeText n ++ nodeListText ns
    rw [ih, emptyText_nodeText n he, List.nil_append]
  · simp only [dropEmptyTexts, he, if_false]
    show nodeText n ++ nodeListText (dropEmptyTexts ns) =
      nodeText n ++ nodeListText ns
    rw [ih]

theorem dropEmpty_noMarks (ns : NodeList) (h : noMarksList ns = true) :
    noMarksList (dropEmptyTexts ns) = true := by
  induction ns using nodeList_ind with
  | h3 => rfl
  | h4 n ns ih =>
    have hh := (Bool.and_eq_true _ _).mp (h : (noMarksNode n && noMarksList ns) = true)
    by_cases he : isEmptyTextNode n = true
    · simp only [dropEmptyTexts, he, if_true]
      exact ih hh.2
    · simp only [dropEmptyTexts, he, if_false]
      show (noMarksNode n && noMarksList (dropEmptyTexts ns)) = true
      rw [hh.1, ih hh.2]
      rfl

theorem dropEmpty_noAdjList (ns : NodeList) (h : noAdjList ns = true) :
    noAdjList (dropEmptyTexts ns) = true := by
  induction ns using nodeList_ind with
  | h3 => rfl
  | h4 n ns ih =>
    have hh := (Bool.and_eq_true _ _).mp (h : (noAdjNode n && noAdjList ns) = true)
    by_cases he : isEmptyTextNode n = true
    · simp only [dropEmptyTexts, he, if_true]
      exact ih hh.2
    · simp only [dropEmptyTexts, he, if_false]
      show (noAdjNode n && noAdjList (dropEmptyTexts ns)) = true
      rw [hh.1, ih hh.2]
      rfl

theorem mergeGo_text :
    ∀ ns : NodeList, nodeListText (mergeGo ns) = nodeListText ns := by
  refine nodeList_ind _ rfl ?_
  intro n ns ih
  cases n with
  | text s =>
    cases hm : mergeGo ns with
    | nil =>
      rw [hm] at ih
      simp only [mergeGo, hm, mergeStep, mergeStepText]
      show nodeText (.text s) ++ nodeListText (.nil : NodeList) =
        nodeText (.text s) ++ nodeListText ns
      rw [← ih]
    | cons hd r =>
      rw [hm] at ih
      cases hd with
      | text t =>
        simp only [mergeGo, hm, mergeStep, mergeStepText]
        show (s ++ t) ++ nodeListText r = s ++ nodeListText ns
        rw [← ih]
        show (s ++ t) ++ nodeListText r = s ++ (t ++ nodeListText r)
        rw [List.append_assoc]
      | elem t2 c2 cs2 =>
        simp only [mergeGo, hm, mergeStep, mergeStepText]
        show nodeText (.text s) ++
          nodeListText (.cons (.elem t2 c2 cs2) r) =
          nodeText (.text s) ++ nodeListText ns
        rw [← ih]
  | elem t c cs =>
    simp only [mergeGo, mergeStep]
    show nodeText (.elem t c cs) ++ nodeListText (mergeGo ns) =
      nodeText (.elem t c cs) ++ nodeListText ns
    rw [ih]

theorem mergeGo_chain : ∀ ns : NodeList, chainNoAdj (mergeGo ns) = true := by
  refine nodeList_ind _ rfl ?_
  intro n ns ih
  cases n with
  | text s =>
    cases hm : mergeGo ns with
    | nil => simp only [mergeGo, hm, mergeStep, mergeStepText]; rfl
    | cons hd r =>
      rw [hm] at ih
      cases hd with
      | text t =>
        simp only [mergeGo, hm, mergeStep, mergeStepText]
        cases r with
        | nil => rfl
        | cons b Y =>
          have hh := (Bool.and_eq_true _ _).mp
            (ih : (!(isTextNode (.text t) && isTextNode b) &&
              chainNoAdj (.cons b Y)) = true)
          show (!(isTextNode (.text (s ++ t)) && isTextNode b) &&
            chainNoAdj (.cons b Y)) = true
          rw [hh.2]
          have hb2 : isTextNode b = false := by
            cases hb : isTextNode b
            · rfl
            · rw [hb] at hh
              simp [isTextNode] at hh
          rw [hb2]
          rfl
      | elem t2 c2 cs2 =>
        simp only [mergeGo, hm, mergeStep, mergeStepText]
        show (!(isTextNode (.text s) && isTextNode (.elem t2 c2 cs2)) &&
          chainNoAdj (.cons (.elem t2 c2 cs2) r)) = true
        rw [ih]
        rfl
  | elem t c cs =>
    simp only [mergeGo, mergeStep]
    refine chain_cons_nontext _ ?_ _ ih
    rfl

theorem mergeGo_noMarks (ns : NodeList) (h : noMarksList ns = true) :
    noMarksList (mergeGo ns) = true := by
  induction ns using nodeList_ind with
  | h3 => rfl
  | h4 n ns ih =>
    have hh := (Bool.and_eq_true _ _).mp
      (h : (noMarksNode n && noMarksList ns) = true)
    have ihr := ih hh.2
    cases n with
    | text s =>
      cases hm : mergeGo ns with
      | nil => simp only [mergeGo, hm, mergeStep, mergeStepText]; rfl
      | cons hd r =>
        rw [hm] at ihr
        cases hd with
        | text t =>
          simp only [mergeGo, hm, mergeStep, mergeStepText]
          have hh2 := (Bool.and_eq_true _ _).mp
            (ihr : (noMarksNode (.text t) && noMarksList r) = true)
          show (noMarksNode (.text (s ++ t)) && noMarksList r) = true
          rw [hh2.2]
          rfl
        | elem t2 c2 cs2 =>
          simp only [mergeGo, hm, mergeStep, mergeStepText]
          show (noMarksNode (.text s) &&
            noMarksList (.cons (.elem t2 c2 cs2) r)) = true
          rw [ihr]
          rfl
    | elem t c cs =>
      simp only [mergeGo, mergeStep]
      show (noMarksNode (.elem t c cs) && noMarksList (mergeGo ns)) = true
      rw [hh.1, ihr]
      rfl

theorem mergeGo_noAdjList (ns : NodeList) (h : noAdjList ns = true) :
    noAdjList (mergeGo ns) = true := by
  induction ns using nodeList_ind with
  | h3 => rfl
  | h4 n ns ih =>
    have hh := (Bool.and_eq_true _ _).mp
      (h : (noAdjNode n && noAdjList ns) = true)
    have ihr := ih hh.2
    cases n with
    | text s =>
      cases hm : mergeGo ns with
      | nil => simp only [mergeGo, hm, mergeStep, mergeStepText]; rfl
      | cons hd r =>
        rw [hm] at ihr
        cases hd with
        | text t =>
          simp only [mergeGo, hm, mergeStep, mergeStepText]
          have hh2 := (Bool.and_eq_true _ _).mp
            (ihr : (noAdjNode (.text t) && noAdjList r) = true)
          show (noAdjNode (.text (s ++ t)) && noAdjList r) = true
          rw [hh2.2]
          rfl
        | elem t2 c2 cs2 =>
          simp only [mergeGo, hm, mergeStep, mergeStepText]
          show (noAdjNode (.text s) &&
            noAdjList (.cons (.elem t2 c2 cs2) r)) = true
          rw [ihr]
          rfl
    | elem t c cs =>
      simp only [mergeGo, mergeStep]
      show (noAdjNode (.elem t c cs) && noAdjList (mergeGo ns)) = true
      rw [hh.1, ihr]
      rfl

theorem mergeTexts_text (ns : NodeList) :
    nodeListText (mergeTexts ns) = nodeListText ns := by
  unfold mergeTexts
  rw [mergeGo_text, dropEmpty_text]

theorem mergeTexts_chain (ns : NodeList) :
    chainNoAdj (mergeTexts ns) = true :=
  mergeGo_chain _

theorem mergeTexts_noMarks (ns : NodeList) (h : noMarksList ns = true) :
    noMarksList (mergeTexts ns) = true :=
  mergeGo_noMarks _ (dropEmpty_noMarks _ h)

theorem mergeTexts_noAdjList (ns : NodeList) (h : noAdjList ns = true) :
    noAdjList (mergeTexts ns) = true :=
  mergeGo_noAdjList _ (dropEmpty_noAdjList _ h)

theorem bool_eq_false {b : Bool} (h : ¬ b = true) : b = false := by
  cases b
  · rfl
  · exact absurd rfl h

theorem clearNode_kind (scope : Bool) (n : Node) :
    isTextNode (clearNode scope n) = isTextNode n := by
  cases n <;> rfl

theorem clear_main :
    (∀ n : Node, ∀ scope : Bool,
      nodeText (clearNode scope n) = nodeText n ∧
      (isMarkHit n = false → noMarksNode (clearNode scope n) = true) ∧
      (noAdjNode n = true → noAdjNode (clearNode scope n) = true)) ∧
    (∀ ns : NodeList, ∀ scope : Bool,
      nodeListText (clearNodes scope ns) = nodeListText ns ∧
      noMarksList (clearNodes scope ns) = true ∧
      (noAdjList ns = true → noAdjList (clearNodes scope ns) = true) ∧
      (chainNoAdj ns = true → nlAnyMark ns = false →
        chainNoAdj (clearNodes scope ns) = true)) := by
  refine nodePair_ind
    (fun n => ∀ scope : Bool,
      nodeText (clearNode scope n) = nodeText n ∧
      (isMarkHit n = false → noMarksNode (clearNode scope n) = true) ∧
      (noAdjNode n = true → noAdjNode (clearNode scope n) = true))
    (fun ns => ∀ scope : Bool,
      nodeListText (clearNodes scope ns) = nodeListText ns ∧
      noMarksList (clearNodes scope ns) = true ∧
      (noAdjList ns = true → noAdjList (clearNodes scope ns) = true) ∧
      (chainNoAdj ns = true → nlAnyMark ns = false →
        chainNoAdj (clearNodes scope ns) = true))
    ?_ ?_ ?_ ?_
  · intro s scope
    exact ⟨rfl, fun _ => rfl, fun h => h⟩
  · intro t c cs hQ scope
    refine ⟨?_, ?_, ?_⟩
    · show nodeListText (if scope || nlAnyMark cs then
        mergeTexts (clearNodes (scope || nlAnyMark cs) cs)
      else clearNodes (scope || nlAnyMark cs) cs) = nodeListText cs
      by_cases hsc : (scope || nlAnyMark cs) = true
      · rw [if_pos hsc, mergeTexts_text]
        exact (hQ _).1
      · rw [if_neg hsc]
        exact (hQ _).1
    · intro hmark
      show (!(t == markTag && c.contains searchHitCls) &&
        noMarksList (if scope || nlAnyMark cs then
          mergeTexts (clearNodes (scope || nlAnyMark cs) cs)
        else clearNodes (scope || nlAnyMark cs) cs)) = true
      have hmark' : (t == markTag && c.contains searchHitCls) = false := hmark
      rw [hmark']
      by_cases hsc : (scope || nlAnyMark cs) = true
      · rw [if_pos hsc, mergeTexts_noMarks _ (hQ _).2.1]
        rfl
      · rw [if_neg hsc, (hQ _).2.1]
        rfl
    · intro h
      have hh := (Bool.and_eq_true _ _).mp
        (h : (chainNoAdj cs && noAdjList cs) = true)
      show (chainNoAdj (if scope || nlAnyMark cs then
          mergeTexts (clearNodes (scope || nlAnyMark cs) cs)
        else clearNodes (scope || nlAnyMark cs) cs) &&
        noAdjList (if scope || nlAnyMark cs then
          mergeTexts (clearNodes (scope || nlAnyMark cs) cs)
        else clearNodes (scope || nlAnyMark cs) cs)) = true
      by_cases hsc : (scope || nlAnyMark cs) = true
      · rw [if_pos hsc, mergeTexts_chain,
          mergeTexts_noAdjList _ ((hQ _).2.2.1 hh.2)]
        rfl
      · have hor := Bool.or_eq_false_iff.mp (bool_eq_false hsc)
        rw [if_neg hsc, (hQ _).2.2.2 hh.1 hor.2, (hQ _).2.2.1 hh.2]
        rfl
  · intro scope
    exact ⟨rfl, rfl, fun h => h, fun _ _ => rfl⟩
  · intro n ns hP hQ scope
    refine ⟨?_, ?_, ?_, ?_⟩
    · show nodeText (if isMarkHit n then .text (nodeText n)
        else clearNode scope n) ++ nodeListText (clearNodes scope ns) =
        nodeText n ++ nodeListText ns
      by_cases hm : isMarkHit n = true
      · rw [if_pos hm, (hQ scope).1]
        rfl
      · rw [if_neg hm, (hP scope).1, (hQ scope).1]
    · show (noMarksNode (if isMarkHit n then .text (nodeText n)
        else clearNode scope n) && noMarksList (clearNodes scope ns)) = true
      by_cases hm : isMarkHit n = true
      · rw [if_pos hm, (hQ scope).2.1]
        rfl
      · rw [if_neg hm, (hP scope).2.1 (bool_eq_false hm), (hQ scope).2.1]
        rfl
    · intro h
      have hh := (Bool.and_eq_true _ _).mp
        (h : (noAdjNode n && noAdjList ns) = true)
      show (noAdjNode (if isMarkHit n then .text (nodeText n)
        else clearNode scope n) && noAdjList (clearNodes scope ns)) = true
      by_cases hm : isMarkHit n = true
      · rw [if_pos hm, (hQ scope).2.2.1 hh.2]
        rfl
      · rw [if_neg hm, (hP scope).2.2 hh.1, (hQ scope).2.2.1 hh.2]
        rfl
    · intro hchain hmarks
      have hor := Bool.or_eq_false_iff.mp
        (hmarks : (isMarkHit n || nlAnyMark ns) = false)
      have hstepn : (if isMarkHit n then Node.text (nodeText n)
          else clearNode scope n) = clearNode scope n := by
        rw [if_neg (by rw [hor.1]; exact Bool.false_ne_true)]
      show chainNoAdj (.cons (if isMarkHit n then .text (nodeText n)
        else clearNode scope n) (clearNodes scope ns)) = true
      rw [hstepn]
      cases ns with
      | nil => rfl
      | cons b Y =>
        have horb := Bool.or_eq_false_iff.mp
          (hor.2 : (isMarkHit b || nlAnyMark Y) = false)
        have hstepb : clearNodes scope (.cons b Y) =
            .cons (clearNode scope b) (clearNodes scope Y) := by
          show NodeList.cons (if isMarkHit b then Node.text (nodeText b)
            else clearNode scope b) (clearNodes scope Y) =
            .cons (clearNode scope b) (clearNodes scope Y)
          rw [if_neg (by rw [horb.1]; exact Bool.false_ne_true)]
        rw [hstepb]
        have hh := (Bool.and_eq_true _ _).mp
          (hchain : (!(isTextNode n && isTextNode b) &&
            chainNoAdj (.cons b Y)) = true)
        have htail := (hQ scope).2.2.2 hh.2 hor.2
        rw [hstepb] at htail
        show (!(isTextNode (clearNode scope n) &&
          isTextNode (clearNode scope b)) &&
          chainNoAdj (.cons (clearNode scope b) (clearNodes scope Y))) = true
        rw [clearNode_kind, clearNode_kind, htail, hh.1]
        rfl

theorem hlNode_nontext (nq pT : Str) (pC : List Str) (n : Node)
    (h : isTextNode n = false) :
    isTextNode (hlNode nq pT pC n).1 = false := by
  cases n with
  | text s => simp [isTextNode] at h
  | elem t c cs => rfl

theorem hl_main (nq : Str) (hq : nq ≠ []) :
    (∀ n : Node, ∀ pT : Str, ∀ pC : List Str,
      nodeText (hlNode nq pT pC n).1 = nodeText n ∧
      (noAdjNode n = true → noAdjNode (hlNode nq pT pC n).1 = true)) ∧
    (∀ ns : NodeList, ∀ pT : Str, ∀ pC : List Str,
      nodeListText (hlNodes nq pT pC ns).1 = nodeListText ns ∧
      (noAdjList ns = true → noAdjList (hlNodes nq pT pC ns).1 = true) ∧
      (chainNoAdj ns = true → chainNoAdj (hlNodes nq pT pC ns).1 = true)) := by
  refine nodePair_ind
    (fun n => ∀ pT : Str, ∀ pC : List Str,
      nodeText (hlNode nq pT pC n).1 = nodeText n ∧
      (noAdjNode n = true → noAdjNode (hlNode nq pT pC n).1 = true))
    (fun ns => ∀ pT : Str, ∀ pC : List Str,
      nodeListText (hlNodes nq pT pC ns).1 = nodeListText ns ∧
      (noAdjList ns = true → noAdjList (hlNodes nq pT pC ns).1 = true) ∧
      (chainNoAdj ns = true → chainNoAdj (hlNodes nq pT pC ns).1 = true))
    ?_ ?_ ?_ ?_
  · intro s pT pC
    by_cases hacc : hlAccept pT pC s = true
    · have hstep : hlNode nq pT pC (.text s) = highlightTextNode nq s := by
        simp only [hlNode]
        rw [if_pos hacc]
      rw [hstep]
      by_cases hinc : includes (normalize s) nq = true
      · by_cases hrs : (ciFindAll s nq).isEmpty = true
        · have h2 : highlightTextNode nq s = (.text s, false) := by
            unfold highlightTextNode
            rw [if_pos hinc, if_pos hrs]
          rw [h2]
          exact ⟨rfl, fun h => h⟩
        · have h2 : highlightTextNode nq s =
              (.elem spanTag [] (segs s 0 (ciFindAll s nq)), true) := by
            unfold highlightTextNode
            rw [if_pos hinc, if_neg hrs]
          rw [h2]
          constructor
          · show nodeListText (segs s 0 (ciFindAll s nq)) = s
            have hst := segs_text s (ciFindAll s nq) 0 (ciFindAll_bounds s nq)
              (ciFindAll_pairwise s nq hq) (fun r _ => Nat.zero_le _)
            rw [List.drop_zero] at hst
            exact hst
          · intro _
            show (chainNoAdj (segs s 0 (ciFindAll s nq)) &&
              noAdjList (segs s 0 (ciFindAll s nq))) = true
            rw [segs_chain s (ciFindAll s nq) 0, segs_noAdj s (ciFindAll s nq) 0]
            rfl
      · have h2 : highlightTextNode nq s = (.text s, false) := by
          unfold highlightTextNode
          rw [if_neg hinc]
        rw [h2]
        exact ⟨rfl, fun h => h⟩
    · have hstep : hlNode nq pT pC (.text s) = (.text s, false) := by
        simp only [hlNode]
        rw [if_neg hacc]
      rw [hstep]
      exact ⟨rfl, fun h => h⟩
  · intro t c cs hQ pT pC
    constructor
    · show nodeListText (hlNodes nq t c cs).1 = nodeListText cs
      exact (hQ t c).1
    · intro h
      have hh := (Bool.and_eq_true _ _).mp
        (h : (chainNoAdj cs && noAdjList cs) = true)
      show (chainNoAdj (hlNodes nq t c cs).1 &&
        noAdjList (hlNodes nq t c cs).1) = true
      rw [(hQ t c).2.2 hh.1, (hQ t c).2.1 hh.2]
      rfl
  · intro pT pC
    exact ⟨rfl, fun h => h, fun h => h⟩
  · intro n ns hP hQ pT pC
    refine ⟨?_, ?_, ?_⟩
    · show nodeText (hlNode nq pT pC n).1 ++
        nodeListText (hlNodes nq pT pC ns).1 = nodeText n ++ nodeListText ns
      rw [(hP pT pC).1, (hQ pT pC).1]
    · intro h
      have hh := (Bool.and_eq_true _ _).mp
        (h : (noAdjNode n && noAdjList ns) = true)
      show (noAdjNode (hlNode nq pT pC n).1 &&
        noAdjList (hlNodes nq pT pC ns).1) = true
      rw [(hP pT pC).2 hh.1, (hQ pT pC).2.1 hh.2]
      rfl
    · intro h
      cases ns with
      | nil =>
        show chainNoAdj (.cons (hlNode nq pT pC n).1 .nil) = true
        rfl
      | cons b Y =>
        have hh := (Bool.and_eq_true _ _).mp
          (h : (!(isTextNode n && isTextNode b) &&
            chainNoAdj (.cons b Y)) = true)
        have htail := (hQ pT pC).2.2 hh.2
        show (!(isTextNode (hlNode nq pT pC n).1 &&
          isTextNode (hlNode nq pT pC b).1) &&
          chainNoAdj (hlNodes nq pT pC (.cons b Y)).1) = true
        rw [htail]
        have hfst : (isTextNode (hlNode nq pT pC n).1 &&
            isTextNode (hlNode nq pT pC b).1) = false := by
          have hin : (isTextNode n && isTextNode b) = false := by
            cases hx : (isTextNode n && isTextNode b)
            · rfl
            · rw [hx] at hh
              simp at hh
          rcases Bool.and_eq_false_iff.mp hin with hn | hb2
          · rw [hlNode_nontext nq pT pC n hn]
            rfl
          · rw [hlNode_nontext nq pT pC b hb2]
            simp
        rw [hfst]
        rfl

theorem isEmpty_ne_nil {l : Str} (h : ¬ l.isEmpty = true) : l ≠ [] := by
  intro hnil
  rw [hnil] at h
  exact h rfl

theorem highlight_text (root : Node) (nq : Str) :
    nodeText (highlightInElement root nq).1 = nodeText root := by
  unfold highlightInElement
  by_cases hq : nq.isEmpty = true
  · rw [if_pos hq]
  · rw [if_neg hq]
    cases root with
    | text s => rfl
    | elem t c cs =>
      show nodeListText (hlNodes nq t c cs).1 = nodeListText cs
      exact ((hl_main nq (isEmpty_ne_nil hq)).2 cs t c).1

theorem highlight_noAdj (root : Node) (nq : Str) (h : noAdjNode root = true) :
    noAdjNode (highlightInElement root nq).1 = true := by
  unfold highlightInElement
  by_cases hq : nq.isEmpty = true
  · rw [if_pos hq]
    exact h
  · rw [if_neg hq]
    cases root with
    | text s => rfl
    | elem t c cs =>
      have hh := (Bool.and_eq_true _ _).mp
        (h : (chainNoAdj cs && noAdjList cs) = true)
      show (chainNoAdj (hlNodes nq t c cs).1 &&
        noAdjList (hlNodes nq t c cs).1) = true
      rw [((hl_main nq (isEmpty_ne_nil hq)).2 cs t c).2.2 hh.1,
        ((hl_main nq (isEmpty_ne_nil hq)).2 cs t c).2.1 hh.2]
      rfl

theorem highlight_notMark (root : Node) (nq : Str)
    (h : isMarkHit root = false) :
    isMarkHit (highlightInElement root nq).1 = false := by
  unfold highlightInElement
  by_cases hq : nq.isEmpty = true
  · rw [if_pos hq]
    exact h
  · rw [if_neg hq]
    cases root with
    | text s => rfl
    | elem t c cs => exact h

theorem clear_text_pres (root : Node) :
    nodeText (clearHighlights root) = nodeText root :=
  (clear_main.1 root false).1

theorem clear_noMarks (root : Node) (h : isMarkHit root = false) :
    noMarksNode (clearHighlights root) = true :=
  (clear_main.1 root false).2.1 h

theorem clear_noAdj (root : Node) (h : noAdjNode root = true) :
    noAdjNode (clearHighlights root) = true :=
  (clear_main.1 root false).2.2 h

theorem htmlDecodeF_id :
    ∀ (fuel : Nat) (s : Str), (∀ c ∈ s, c ≠ '&') → htmlDecodeF fuel s = s := by
  intro fuel
  induction fuel with
  | zero => intro s _; rfl
  | succ fuel ih =>
    intro s h
    cases s with
    | nil => rfl
    | cons c rest =>
      have hc : ¬ c = '&' := h c (List.mem_cons_self _ _)
      simp only [htmlDecodeF]
      rw [if_neg hc, ih rest (fun c2 hc2 => h c2 (List.mem_cons_of_mem _ hc2))]

theorem htmlDecode_id (s : Str) (h : ∀ c ∈ s, c ≠ '&') : htmlDecode s = s :=
  htmlDecodeF_id s.length s h

theorem contains_amp_of_mem {l : Str} (h : '&' ∈ l) :
    l.contains '&' = true := by
  simpa using h

theorem noAmp_of_markupFree {s : Str} (h : markupFreeNode (.text s) = true) :
    ∀ c ∈ s, c ≠ '&' := by
  have hh := (Bool.and_eq_true _ _).mp
    (h : (!(s.contains '<') && !(s.contains '&')) = true)
  have h2 : s.contains '&' = false := by
    cases hx : s.contains '&'
    · rfl
    · rw [hx] at hh
      simp at hh
  intro c hc he
  subst he
  rw [contains_amp_of_mem hc] at h2
  exact Bool.noConfusion h2

theorem segsHtml_eq_segs (s : Str) (hamp : ∀ c ∈ s, c ≠ '&') :
    ∀ (rs : List Range) (pos : Nat), segsHtml s pos rs = segs s pos rs := by
  have hdec : ∀ l : Str, l ⊆ s → htmlDecode l = l := by
    intro l hsub
    exact htmlDecode_id l (fun c hc => hamp c (hsub hc))
  intro rs
  induction rs with
  | nil =>
    intro pos
    simp only [segsHtml, segs]
    rw [hdec (s.drop pos) (List.drop_sublist _ _).subset]
  | cons r rest ih =>
    intro pos
    simp only [segsHtml, segs]
    rw [hdec ((s.drop pos).take (r.start - pos))
        (((List.take_sublist _ _).trans (List.drop_sublist _ _)).subset),
      hdec ((s.drop r.start).take (r.«end» - r.start))
        (((List.take_sublist _ _).trans (List.drop_sublist _ _)).subset),
      ih r.«end»]

theorem highlightTextNodeHtml_eq (nq s : Str) (hamp : ∀ c ∈ s, c ≠ '&') :
    highlightTextNodeHtml nq s = highlightTextNode nq s := by
  unfold highlightTextNodeHtml highlightTextNode
  rw [segsHtml_eq_segs s hamp (ciFindAll s nq) 0]

theorem hlHtml_eq (nq : Str) :
    (∀ n : Node, ∀ pT : Str, ∀ pC : List Str, markupFreeNode n = true →
      hlNodeHtml nq pT pC n = hlNode nq pT pC n) ∧
    (∀ ns : NodeList, ∀ pT : Str, ∀ pC : List Str, markupFreeList ns = true →
      hlNodesHtml nq pT pC ns = hlNodes nq pT pC ns) := by
  refine nodePair_ind
    (fun n => ∀ pT : Str, ∀ pC : List Str, markupFreeNode n = true →
      hlNodeHtml nq pT pC n = hlNode nq pT pC n)
    (fun ns => ∀ pT : Str, ∀ pC : List Str, markupFreeList ns = true →
      hlNodesHtml nq pT pC ns = hlNodes nq pT pC ns)
    ?_ ?_ ?_ ?_
  · intro s pT pC hmf
    have hamp := noAmp_of_markupFree hmf
    simp only [hlNodeHtml, hlNode]
    by_cases hacc : hlAccept pT pC s = true
    · rw [if_pos hacc, if_pos hacc, highlightTextNodeHtml_eq nq s hamp]
    · rw [if_neg hacc, if_neg hacc]
  · intro t c cs hQ pT pC hmf
    simp only [hlNodeHtml, hlNode]
    rw [hQ t c (hmf : markupFreeList cs = true)]
  · intro pT pC _
    rfl
  · intro n ns hP hQ pT pC hmf
    have hh := (Bool.and_eq_true _ _).mp
      (hmf : (markupFreeNode n && markupFreeList ns) = true)
    simp only [hlNodesHtml, hlNodes]
    rw [hP pT pC hh.1, hQ pT pC hh.2]

theorem highlightInElementHtml_eq (root : Node) (nq : Str)
    (hmf : markupFreeNode root = true) :
    highlightInElementHtml root nq = highlightInElement root nq := by
  unfold highlightInElementHtml highlightInElement
  by_cases hq : nq.isEmpty = true
  · rw [if_pos hq, if_pos hq]
  · rw [if_neg hq, if_neg hq]
    cases root with
    | text s => rfl
    | elem t c cs =>
      show (Node.elem t c (hlNodesHtml nq t c cs).1, (hlNodesHtml nq t c cs).2) =
        (Node.elem t c (hlNodes nq t c cs).1, (hlNodes nq t c cs).2)
      rw [(hlHtml_eq nq).2 cs t c (hmf : markupFreeList cs = true)]

/-- C2 (counterexample): the round trip does not restore text containing
markup characters.  For the unit holding the text node `books&notes` and the
normalized query `books`, the replaced string is
`<mark class="search-hit">books</mark>&notes`; assigning it through
`span.innerHTML` decodes the legacy character reference `&not`, so after
highlighting and clearing the unit's text content is `books¬es`, not the
original `books&notes`. -/
theorem claimC2_counterexample :
    nodeText (.elem ("P".toList) []
      (.cons (.text ("books&notes".toList)) .nil)) = ("books&notes".toList) ∧
    nodeText (clearHighlights (highlightInElementHtml
      (.elem ("P".toList) [] (.cons (.text ("books&notes".toList)) .nil))
      ("books".toList)).1) = ("books¬es".toList) ∧
    (("books¬es".toList) : Str) ≠ ("books&notes".toList) := by
  refine ⟨rfl, by decide, by decide⟩

/-- C2 (amended): for every content unit whose text is free of the markup
characters `<` and `&` — so the `innerHTML` reparse of the replacement spans
is literal — running `highlightInElement` and then `clearHighlights` restores
the unit's text content character-for-character, leaves no `mark.search-hit`
marker anywhere, and leaves no two adjacent sibling text nodes anywhere (the
`normalize()` calls merge what the clearing fragments).  The unit is assumed
initially unfragmented and not itself a marker.  On markup-bearing text the
reparse decodes character references and the round trip alters the text
(`claimC2_counterexample`).  The leftover `<span>` wrappers are not removed —
the text is restored inside them — but no text-node adjacency remains. -/
theorem claimC2 (u : Node) (nq : Str)
    (hmf : markupFreeNode u = true)
    (hadj : noAdjNode u = true)
    (hroot : isMarkHit u = false) :
    nodeText (clearHighlights (highlightInElementHtml u nq).1) = nodeText u ∧
    noAdjNode (clearHighlights (highlightInElementHtml u nq).1) = true ∧
    noMarksNode (clearHighlights (highlightInElementHtml u nq).1) = true := by
  rw [highlightInElementHtml_eq u nq hmf]
  refine ⟨?_, ?_, ?_⟩
  · rw [clear_text_pres, highlight_text]
  · exact clear_noAdj _ (highlight_noAdj u nq hadj)
  · exact clear_noMarks _ (highlight_notMark u nq hroot)

/-- Witness for C2 at a concrete markup-free unit containing the text
`un jose azul` and the query `jose` (which produces a real marker). -/
theorem claimC2_witness :
    nodeText (clearHighlights (highlightInElementHtml
      (.elem ("P".toList) [] (.cons (.text ("un jose azul".toList)) .nil))
      ("jose".toList)).1) =
      nodeText (.elem ("P".toList) []
        (.cons (.text ("un jose azul".toList)) .nil)) ∧
    noAdjNode (clearHighlights (highlightInElementHtml
      (.elem ("P".toList) [] (.cons (.text ("un jose azul".toList)) .nil))
      ("jose".toList)).1) = true ∧
    noMarksNode (clearHighlights (highlightInElementHtml
      (.elem ("P".toList) [] (.cons (.text ("un jose azul".toList)) .nil))
      ("jose".toList)).1) = true :=
  claimC2 (.elem ("P".toList) [] (.cons (.text ("un jose azul".toList)) .nil))
    ("jose".toList) (by decide) (by decide) (by decide)
/-- Witness for C6 at a concrete well-formed state (one tagged opened
connected `details` in the set) and the query `returns`. -/
theorem claimC6_witness :
    ((onInput ("returns".toList)
      ⟨[⟨[], true, true, true, false⟩], [0]⟩).dets.getD 0 detDfl).«open» = false ∧
    ((onInput ("returns".toList)
      ⟨[⟨[], true, true, true, false⟩], [0]⟩).dets.getD 0 detDfl).tagged = false :=
  (claimC6 ⟨[⟨[], true, true, true, false⟩], [0]⟩ ("returns".toList)
    (by
      intro j hj htag hconn
      have h1 : j < 1 := by simpa using hj
      have h0 : j = 0 := Nat.lt_one_iff.mp h1
      subst h0
      decide) 0 (by decide)).2.1
    (by decide) (by decide) (Or.inr (by decide))

end App
